import Mathlib

/-!
Shallow embedding of the NPS survey application (`src/App.jsx`) and proofs
about its claims.  The source file contains two concatenated revisions of the
same one-page React app; the first revision (lines 1-482) carries the portable
link feature and the internal/external redirect split, the second revision
(lines 484-723) is an older copy of the same components.  Definitions below
are labelled with the source lines they embed.

Scores are JS numbers, modelled as rationals; machine strings are Lean
`String`s.  Query parameters (`URLSearchParams`, route params) are modelled as
ordered association lists of key/value strings; the keys the redirect logic
appends are plain ASCII.  The portable-token transport, where encoding
matters, is modelled in full: `JSON.stringify` and `encodeURIComponent` on
the way out, the `URLSearchParams` percent-decode of `hashRoute` plus the
second `decodeURIComponent` and `JSON.parse` on the way in.
-/

set_option autoImplicit false

namespace NpsApp

/-- Score bands of the NPS survey, derived from a 0-10 score. -/
inductive Band where
  | promoter
  | passive
  | detractor
deriving DecidableEq, Repr

/-- Band of a score, following the branch order of the redirect code in
`handleSubmit` (lines 369-371: `s >= 9`, then `s >= 7`, else detractor). -/
def classify (s : ℚ) : Band :=
  if 9 ≤ s then .promoter else if 7 ≤ s then .passive else .detractor

/-- One respondent submission: the `payload` record built in `handleSubmit`
(lines 346-355).  `meta` and `routeParams` are opaque string bags. -/
structure Response where
  id : String
  tsISO : String
  campaignId : String
  score : ℚ
  comment : String
  email : String
  meta : List (String × String)
  routeParams : List (String × String)
deriving DecidableEq, Repr

/-- A campaign configuration (shape of `DEFAULT_CAMPAIGN`, lines 61-73,
plus the `__ephemeral` marker set on decoded portable campaigns). -/
structure Campaign where
  id : String
  name : String
  audience : String
  brandName : String
  accentHex : String
  thankYou : String
  promoterUrl : String
  passiveUrl : String
  detractorUrl : String
  webhookUrl : String
  isActive : Bool
  ephemeral : Bool := false
deriving DecidableEq, Repr

/-- Aggregate record returned by `npsStats` (lines 121-128). -/
structure NpsTotals where
  total : ℕ
  promoters : ℕ
  passives : ℕ
  detractors : ℕ
  nps : ℤ
deriving DecidableEq, Repr

/-- JS `Math.round`: nearest integer, ties rounded toward positive infinity
(`Math.round x = floor (x + 1/2)` for finite numbers). -/
def jsRound (q : ℚ) : ℤ := Rat.floor (q + 1/2)

/-- `jsRound` is the floor of the shifted argument. -/
theorem jsRound_eq_floor (q : ℚ) : jsRound q = ⌊q + 1/2⌋ := by
  rw [jsRound, Rat.floor_def, Rat.floor_def']

/-- The dashboard aggregate (lines 121-128): counts of promoters
(`score >= 9`), passives (`score >= 7 && score <= 8`), detractors
(`score <= 6`) and `nps = total ? Math.round(((promoters - detractors) /
total) * 100) : 0`. -/
def npsStats (filtered : List Response) : NpsTotals :=
  let total := filtered.length
  let promoters := (filtered.filter (fun r => decide (9 ≤ r.score))).length
  let passives := (filtered.filter (fun r => decide (7 ≤ r.score) && decide (r.score ≤ 8))).length
  let detractors := (filtered.filter (fun r => decide (r.score ≤ 6))).length
  let nps : ℤ :=
    if total = 0 then 0
    else jsRound ((((promoters : ℤ) - (detractors : ℤ) : ℤ) : ℚ) / (total : ℚ) * 100)
  { total := total, promoters := promoters, passives := passives,
    detractors := detractors, nps := nps }

/-- A response record carrying just a score, used to probe the aggregator. -/
def respOfScore (q : ℚ) : Response :=
  { id := "r", tsISO := "t", campaignId := "k", score := q,
    comment := "", email := "", meta := [], routeParams := [] }

/-- Destination URL selected from the submitted score (lines 366-371):
`s >= 9` takes `promoterUrl`, `s >= 7` takes `passiveUrl`, otherwise
`detractorUrl`. -/
def selectUrl (c : Campaign) (s : ℚ) : String :=
  if 9 ≤ s then c.promoterUrl else if 7 ≤ s then c.passiveUrl else c.detractorUrl

/-- The URL a band designates, spelling out the spec sentence that the same
three bands drive both counting and redirect selection. -/
def bandUrl (b : Band) (c : Campaign) : String :=
  match b with
  | .promoter => c.promoterUrl
  | .passive => c.passiveUrl
  | .detractor => c.detractorUrl

/-- The ten-response sample of the spec: six promoters, two passives and two
detractors. -/
def sampleResponses : List Response :=
  List.map respOfScore [10, 9, 9, 9, 9, 10, 7, 8, 3, 0]

/-- C5: the aggregate `nps` is `round(((promoters - detractors) / total) *
100)` for a nonempty response set and `0` for an empty one, and on the
ten-response sample with six promoters, two passives and two detractors it
equals `40`. -/
theorem c5_nps_formula (rs : List Response) :
    ((npsStats rs).nps =
      if rs.length = 0 then 0
      else jsRound (((((rs.filter (fun r => decide (9 ≤ r.score))).length : ℤ)
        - ((rs.filter (fun r => decide (r.score ≤ 6))).length : ℤ) : ℤ) : ℚ)
        / (rs.length : ℚ) * 100))
    ∧ (npsStats sampleResponses).nps = 40
    ∧ (npsStats []).nps = 0 := by
  refine ⟨rfl, ?_, by decide⟩
  simp [npsStats, sampleResponses, respOfScore, jsRound_eq_floor]
  norm_num [Int.floor_eq_iff]

/-- C1: over the eleven scores 0-10, classification is Promoter iff `s >= 9`,
Passive iff `7 <= s <= 8`, Detractor iff `s <= 6` (so the bands are exhaustive
and mutually exclusive), the aggregator counts a score in a band exactly when
classification puts it there, and the redirect URL selection of `handleSubmit`
picks the URL of the classified band. -/
theorem c1_score_bands (s : ℤ) (h0 : 0 ≤ s) (h10 : s ≤ 10) :
    (classify (s:ℚ) = Band.promoter ↔ 9 ≤ s)
  ∧ (classify (s:ℚ) = Band.passive ↔ 7 ≤ s ∧ s ≤ 8)
  ∧ (classify (s:ℚ) = Band.detractor ↔ s ≤ 6)
  ∧ ((npsStats [respOfScore (s:ℚ)]).promoters
      = if classify (s:ℚ) = Band.promoter then 1 else 0)
  ∧ ((npsStats [respOfScore (s:ℚ)]).passives
      = if classify (s:ℚ) = Band.passive then 1 else 0)
  ∧ ((npsStats [respOfScore (s:ℚ)]).detractors
      = if classify (s:ℚ) = Band.detractor then 1 else 0)
  ∧ (∀ c : Campaign, selectUrl c (s:ℚ) = bandUrl (classify (s:ℚ)) c) := by
  interval_cases s <;>
    norm_num [classify, selectUrl, bandUrl, npsStats, respOfScore] <;> decide

/-- Witness for C1 at the concrete score 8. -/
theorem c1_score_bands_witness :
    ((0:ℤ) ≤ 8 ∧ (8:ℤ) ≤ 10)
    ∧ ((classify ((8:ℤ):ℚ) = Band.promoter ↔ 9 ≤ (8:ℤ))
  ∧ (classify ((8:ℤ):ℚ) = Band.passive ↔ 7 ≤ (8:ℤ) ∧ (8:ℤ) ≤ 8)
  ∧ (classify ((8:ℤ):ℚ) = Band.detractor ↔ (8:ℤ) ≤ 6)
  ∧ ((npsStats [respOfScore ((8:ℤ):ℚ)]).promoters
      = if classify ((8:ℤ):ℚ) = Band.promoter then 1 else 0)
  ∧ ((npsStats [respOfScore ((8:ℤ):ℚ)]).passives
      = if classify ((8:ℤ):ℚ) = Band.passive then 1 else 0)
  ∧ ((npsStats [respOfScore ((8:ℤ):ℚ)]).detractors
      = if classify ((8:ℤ):ℚ) = Band.detractor then 1 else 0)
  ∧ (∀ c : Campaign, selectUrl c ((8:ℤ):ℚ) = bandUrl (classify ((8:ℤ):ℚ)) c)) :=
  ⟨⟨by decide, by decide⟩, c1_score_bands 8 (by decide) (by decide)⟩

/-- The three band counts of the aggregator partition any response list whose
scores are integers in `[0, 10]`. -/
theorem bands_partition_counts (rs : List Response)
    (h : ∀ r ∈ rs, ∃ n : ℤ, r.score = (n:ℚ) ∧ 0 ≤ n ∧ n ≤ 10) :
    (rs.filter (fun r => decide (9 ≤ r.score))).length
    + (rs.filter (fun r => decide (7 ≤ r.score) && decide (r.score ≤ 8))).length
    + (rs.filter (fun r => decide (r.score ≤ 6))).length = rs.length := by
  induction rs with
  | nil => simp
  | cons r tl ih =>
    obtain ⟨n, hs, h0, h10⟩ := h r (List.mem_cons_self r tl)
    have htl := ih (fun x hx => h x (List.mem_cons_of_mem r hx))
    have i9 : ((9:ℚ) ≤ r.score) ↔ ((9:ℤ) ≤ n) := by rw [hs]; exact_mod_cast Iff.rfl
    have i7 : ((7:ℚ) ≤ r.score) ↔ ((7:ℤ) ≤ n) := by rw [hs]; exact_mod_cast Iff.rfl
    have i8 : (r.score ≤ (8:ℚ)) ↔ (n ≤ (8:ℤ)) := by rw [hs]; exact_mod_cast Iff.rfl
    have i6 : (r.score ≤ (6:ℚ)) ↔ (n ≤ (6:ℤ)) := by rw [hs]; exact_mod_cast Iff.rfl
    simp only [List.filter_cons, List.length_cons]
    rcases (show ((9:ℤ) ≤ n) ∨ ((7:ℤ) ≤ n ∧ n ≤ 8) ∨ (n ≤ (6:ℤ)) by omega) with hc | hc | hc
    · have d1 : decide ((9:ℚ) ≤ r.score) = true := decide_eq_true (i9.mpr hc)
      have h8 : ¬ (r.score ≤ (8:ℚ)) := fun hx => absurd (i8.mp hx) (by omega)
      have h6 : ¬ (r.score ≤ (6:ℚ)) := fun hx => absurd (i6.mp hx) (by omega)
      simp [d1, h8, h6]
      omega
    · have d1 : ¬ ((9:ℚ) ≤ r.score) := fun hx => absurd (i9.mp hx) (by omega)
      have h7 : ((7:ℚ) ≤ r.score) := i7.mpr (by omega)
      have h8 : (r.score ≤ (8:ℚ)) := i8.mpr (by omega)
      have h6 : ¬ (r.score ≤ (6:ℚ)) := fun hx => absurd (i6.mp hx) (by omega)
      simp [d1, h7, h8, h6]
      omega
    · have d1 : ¬ ((9:ℚ) ≤ r.score) := fun hx => absurd (i9.mp hx) (by omega)
      have h7 : ¬ ((7:ℚ) ≤ r.score) := fun hx => absurd (i7.mp hx) (by omega)
      have h6 : (r.score ≤ (6:ℚ)) := i6.mpr (by omega)
      simp [d1, h7, h6]
      omega

/-- C10: when every score is an integer in `[0, 10]`, the band counts satisfy
`promoters + passives + detractors = total`; without the precondition the
bands do not partition the list: a response with score `13/2` (between 6 and
7) or `17/2` (between 8 and 9) is counted in `total` but in no band. -/
theorem c10_partition (rs : List Response)
    (h : ∀ r ∈ rs, ∃ n : ℤ, r.score = (n:ℚ) ∧ 0 ≤ n ∧ n ≤ 10) :
    ((npsStats rs).promoters + (npsStats rs).passives + (npsStats rs).detractors
      = (npsStats rs).total)
    ∧ ((npsStats [respOfScore ((13:ℚ)/2)]).total = 1
       ∧ (npsStats [respOfScore ((13:ℚ)/2)]).promoters
         + (npsStats [respOfScore ((13:ℚ)/2)]).passives
         + (npsStats [respOfScore ((13:ℚ)/2)]).detractors = 0)
    ∧ ((npsStats [respOfScore ((17:ℚ)/2)]).total = 1
       ∧ (npsStats [respOfScore ((17:ℚ)/2)]).promoters
         + (npsStats [respOfScore ((17:ℚ)/2)]).passives
         + (npsStats [respOfScore ((17:ℚ)/2)]).detractors = 0) := by
  have hp := bands_partition_counts rs h
  have a1 : ¬ ((9:ℚ) ≤ 13/2) := by norm_num
  have a2 : ¬ ((7:ℚ) ≤ 13/2) := by norm_num
  have a3 : ¬ ((13:ℚ)/2 ≤ 6) := by norm_num
  have b1 : ¬ ((9:ℚ) ≤ 17/2) := by norm_num
  have b2 : ((7:ℚ) ≤ 17/2) := by norm_num
  have b3 : ¬ ((17:ℚ)/2 ≤ 8) := by norm_num
  have b4 : ¬ ((17:ℚ)/2 ≤ 6) := by norm_num
  refine ⟨by simpa [npsStats] using hp, ⟨?_, ?_⟩, ⟨?_, ?_⟩⟩ <;>
    simp [npsStats, respOfScore, a1, a2, a3, b1, b2, b3, b4]

/-- Witness for C10 on a singleton list with integer score 9. -/
theorem c10_partition_witness :
    (∀ r ∈ [respOfScore 9], ∃ n : ℤ, r.score = (n:ℚ) ∧ 0 ≤ n ∧ n ≤ 10)
    ∧ ((npsStats [respOfScore 9]).promoters + (npsStats [respOfScore 9]).passives
        + (npsStats [respOfScore 9]).detractors = (npsStats [respOfScore 9]).total) := by
  have hh : ∀ r ∈ [respOfScore 9], ∃ n : ℤ, r.score = (n:ℚ) ∧ 0 ≤ n ∧ n ≤ 10 := by
    intro r hr
    simp only [List.mem_singleton] at hr
    exact ⟨9, by simp [hr, respOfScore], by omega, by omega⟩
  exact ⟨hh, (c10_partition [respOfScore 9] hh).1⟩

/-- Case-insensitive prefix test on character lists, the anchored regex test
`/^.../i`. -/
def startsWithCI : List Char → List Char → Bool
  | [], _ => true
  | _ :: _, [] => false
  | p :: ps, s :: ss => (p.toLower == s.toLower) && startsWithCI ps ss

/-- The scheme test `/^https?:\/\//i` (lines 376 and 381). -/
def isHttpUrl (u : String) : Bool :=
  startsWithCI "http://".data u.data || startsWithCI "https://".data u.data

/-- `normalizeUrl` (lines 374-377): empty input stays empty, input already
matching the scheme regex is kept, otherwise the run of leading slashes is
stripped (`u.replace(/^\/+/, "")`) and `https://` is prepended. -/
def normalizeUrl (u : String) : String :=
  if u = "" then ""
  else if isHttpUrl u then u
  else String.mk ("https://".data ++ u.data.dropWhile (fun ch => ch == '/'))

/-- A URL as the redirect code observes it: everything before `?`, plus the
ordered query pairs held by `searchParams`. -/
structure UrlModel where
  base : String
  query : List (String × String)
deriving DecidableEq, Repr

/-- Split a character list at every occurrence of a separator. -/
def splitOnChar (sep : Char) : List Char → List (List Char)
  | [] => [[]]
  | ch :: rest =>
    let r := splitOnChar sep rest
    if ch == sep then [] :: r
    else
      match r with
      | [] => [[ch]]
      | g :: gs => (ch :: g) :: gs

/-- Parse one query segment: key before the first `=`, value after it (a
segment without `=` yields an empty value). -/
def parseSegment (seg : List Char) : String × String :=
  let k := seg.takeWhile (fun ch => ch != '=')
  (String.mk k, String.mk (seg.drop (k.length + 1)))

/-- Parse a query string into ordered key/value pairs (`URLSearchParams`;
percent-decoding is not modelled, every key this program manipulates is plain
ASCII). -/
def parseQS (l : List Char) : List (String × String) :=
  if l = [] then []
  else ((splitOnChar '&' l).filter (fun seg => seg != [])).map parseSegment

/-- Parse an absolute URL into its base part and query pairs (`new
URL(url)`). -/
def parseUrlQ (url : String) : UrlModel :=
  let b := url.data.takeWhile (fun ch => ch != '?')
  { base := String.mk b, query := parseQS (url.data.drop (b.length + 1)) }

/-- `URLSearchParams.set`: replace the value at the first occurrence of the
key, dropping any later occurrence, or append the pair at the end. -/
def setParam : List (String × String) → String → String → List (String × String)
  | [], k, v => [(k, v)]
  | (k', v') :: rest, k, v =>
    if k' == k then (k, v) :: rest.filter (fun p => p.1 != k)
    else (k', v') :: setParam rest k v

/-- `URLSearchParams.has`. -/
def hasParam (q : List (String × String)) (k : String) : Bool :=
  q.any (fun p => p.1 == k)

/-- `URLSearchParams.get`: value at the first occurrence of the key. -/
def getParam (q : List (String × String)) (k : String) : Option String :=
  (q.find? (fun p => p.1 == k)).map (fun p => p.2)

/-- Relative resolution of a schemeless URL against the page origin (`new
URL(url, origin)` in its relative case): join origin and path.  The first
revision of `handleSubmit` never reaches this case (see `c9_always_external`);
the second revision reaches it only for schemeless destination URLs. -/
def resolveAgainst (origin url : String) : UrlModel :=
  parseUrlQ (String.mk (origin.data ++
    (match url.data with
     | [] => ['/']
     | ch :: rest => if ch == '/' then ch :: rest else '/' :: ch :: rest)))

/-- `new URL(url, origin)` (line 685): an absolute http(s) URL parses as
itself, anything else resolves against the origin. -/
def resolveUrl (origin url : String) : UrlModel :=
  if isHttpUrl url then parseUrlQ url else resolveAgainst origin url

/-- JS `String(s)` on the submitted score (an integer-valued number in this
program). -/
def jsNumToString (q : ℚ) : String :=
  if q.den = 1 then toString q.num else toString q

/-- The fixed allow-list of tracking keys forwarded to internal destinations
(line 388). -/
def forwardKeys : List String := ["source", "utm", "utm_source", "utm_medium", "utm_campaign"]

/-- Redirect construction of the first `handleSubmit` revision (lines
366-399): select the band URL, normalize it, stop when empty; otherwise parse
it (externally or against the origin), always set `email` when present, and
for internal destinations only forward the allow-listed route params that are
not already present and set `score`. -/
def handleRedirect (origin : String) (c : Campaign) (s : ℚ) (email : String)
    (params : List (String × String)) : Option UrlModel :=
  let url := normalizeUrl (selectUrl c s)
  if url = "" then none
  else
    let isExternal := isHttpUrl url
    let u := if isExternal then parseUrlQ url else resolveAgainst origin url
    let u := if email != "" then { u with query := setParam u.query "email" email } else u
    let u :=
      if !isExternal then
        let u := params.foldl (fun acc kv =>
          if !(hasParam acc.query kv.1) && forwardKeys.contains kv.1 then
            { acc with query := setParam acc.query kv.1 kv.2 }
          else acc) u
        { u with query := setParam u.query "score" (jsNumToString s) }
      else u
    some u

/-- Redirect construction of the second `handleSubmit` revision (lines
683-685): resolve the selected URL against the origin, always set `score`,
set `email` when present, then forward every route param whose key is not
already present — with no external/internal distinction and no allow-list. -/
def handleRedirectV2 (origin : String) (c : Campaign) (s : ℚ) (email : String)
    (params : List (String × String)) : Option UrlModel :=
  let url := selectUrl c s
  if url = "" then none
  else
    let u := resolveUrl origin url
    let u := { u with query := setParam u.query "score" (jsNumToString s) }
    let u := if email != "" then { u with query := setParam u.query "email" email } else u
    let u := params.foldl (fun acc kv =>
      if !(hasParam acc.query kv.1) then { acc with query := setParam acc.query kv.1 kv.2 }
      else acc) u
    some u

/-- A case-insensitive prefix matches the prefix itself followed by
anything. -/
theorem startsWithCI_self_append (p r : List Char) : startsWithCI p (p ++ r) = true := by
  induction p with
  | nil => rfl
  | cons a ps ih => simp [startsWithCI, ih]

/-- The normalization of any non-empty URL matches the scheme regex. -/
theorem normalize_isHttp (u : String) (h : u ≠ "") : isHttpUrl (normalizeUrl u) = true := by
  unfold normalizeUrl
  rw [if_neg h]
  by_cases hh : isHttpUrl u
  · rw [if_pos (by exact_mod_cast hh)]; exact hh
  · rw [if_neg (by simpa using hh)]
    unfold isHttpUrl
    have hs : startsWithCI "https://".data
        ("https://".data ++ (u.data.dropWhile (fun ch => ch == '/'))) = true :=
      startsWithCI_self_append _ _
    simp only [String.data]
    rw [hs, Bool.or_true]

/-- The external-destination straight line of the first-revision redirect:
parse the normalized URL and add only the email.  Written from the claim, to
be compared with `handleRedirect`. -/
def redirectExternalOnly (c : Campaign) (s : ℚ) (email : String) : Option UrlModel :=
  let url := normalizeUrl (selectUrl c s)
  if url = "" then none
  else
    let u := parseUrlQ url
    some (if email != "" then { u with query := setParam u.query "email" email } else u)

/-- The first-revision redirect never takes its internal branch: it equals
the external-only straight line on every input. -/
theorem handleRedirect_eq_externalOnly (origin : String) (c : Campaign) (s : ℚ)
    (email : String) (params : List (String × String)) :
    handleRedirect origin c s email params = redirectExternalOnly c s email := by
  unfold handleRedirect redirectExternalOnly
  by_cases hz : normalizeUrl (selectUrl c s) = ""
  · simp [hz]
  · have hsel : selectUrl c s ≠ "" := fun he => hz (by rw [he]; rfl)
    have hext := normalize_isHttp _ hsel
    simp [hz, hext]

/-- C9: every non-empty destination normalizes to a URL matching the scheme
regex `^https?://` (in particular the leading-slash path `/thanks` is
rewritten to `https://thanks`), so the redirect classifies every destination
as external and the internal branch — allow-list forwarding and the score
parameter — is unreachable: the redirect equals its external-only straight
line on all inputs. -/
theorem c9_internal_unreachable (u : String) (h : u ≠ "") :
    isHttpUrl (normalizeUrl u) = true
    ∧ normalizeUrl "/thanks" = "https://thanks"
    ∧ ∀ (origin : String) (c : Campaign) (s : ℚ) (email : String)
        (params : List (String × String)),
        handleRedirect origin c s email params = redirectExternalOnly c s email :=
  ⟨normalize_isHttp u h, by decide, handleRedirect_eq_externalOnly⟩

/-- Witness for C9 at the concrete destination `/thanks`. -/
theorem c9_internal_unreachable_witness :
    ("/thanks" : String) ≠ "" ∧ isHttpUrl (normalizeUrl "/thanks") = true :=
  ⟨by decide, (c9_internal_unreachable "/thanks" (by decide)).1⟩

/-- The campaign of the schemeless-detractor scenario of C3. -/
def fixCampaign : Campaign :=
  { id := "camp-fix", name := "Sondage NPS", audience := "clients",
    brandName := "Marque", accentHex := "#2563eb", thankYou := "Merci!",
    promoterUrl := "", passiveUrl := "", detractorUrl := "example.com/fix",
    webhookUrl := "", isActive := true }

/-- C3 counterexample: submitting score 5 with `detractorUrl =
"example.com/fix"` does redirect to `https://example.com/fix`, but the
query string does NOT contain `score=5` — the normalized URL is external, and
the score parameter is only set on the (unreachable) internal branch. -/
theorem c3_counterexample :
    Option.map (fun u => u.base)
      (handleRedirect "https://app.local" fixCampaign 5 "" [("c", "TOKEN"), ("utm_source", "x")])
      = some "https://example.com/fix"
    ∧ Option.map (fun u => hasParam u.query "score")
      (handleRedirect "https://app.local" fixCampaign 5 "" [("c", "TOKEN"), ("utm_source", "x")])
      = some false := by decide

/-- C3 amended: submitting score 5 to a campaign whose `detractorUrl` is the
schemeless `example.com/fix` redirects to `https://example.com/fix`; the
portable-token key `c` is absent from the query, and so is `score` — for this
external destination only the email (when provided) is added. -/
theorem c3_schemeless_detractor :
    normalizeUrl "example.com/fix" = "https://example.com/fix"
    ∧ handleRedirect "https://app.local" fixCampaign 5 "nom@exemple.com"
        [("c", "TOKEN"), ("utm_source", "x")]
      = some { base := "https://example.com/fix", query := [("email", "nom@exemple.com")] }
    ∧ handleRedirect "https://app.local" fixCampaign 5 "" [("c", "TOKEN"), ("utm_source", "x")]
      = some { base := "https://example.com/fix", query := [] } := by decide

/-- The campaign of the external-promoter scenario of C2. -/
def leakCampaign : Campaign :=
  { id := "camp-leak", name := "Sondage NPS", audience := "clients",
    brandName := "Marque", accentHex := "#2563eb", thankYou := "Merci!",
    promoterUrl := "https://reviews.example/leave", passiveUrl := "",
    detractorUrl := "", webhookUrl := "", isActive := true }

/-- C2: at the same submission — external `promoterUrl`, score 10, an email,
and route params carrying the portable token `c` and a custom key `x` — the
first-revision redirect (lines 380-396) adds only the email, but the
second-revision redirect (lines 683-685) forwards `c` and `x` (and `score`)
onto the external destination, contradicting the claim. -/
theorem c2_v2_forwards_token :
    handleRedirect "https://app.local" leakCampaign 10 "a@b.c" [("c", "TOKEN"), ("x", "1")]
      = some { base := "https://reviews.example/leave", query := [("email", "a@b.c")] }
    ∧ handleRedirectV2 "https://app.local" leakCampaign 10 "a@b.c" [("c", "TOKEN"), ("x", "1")]
      = some { base := "https://reviews.example/leave",
               query := [("score", "10"), ("email", "a@b.c"), ("c", "TOKEN"), ("x", "1")] }
    ∧ Option.map (fun u => hasParam u.query "c")
        (handleRedirectV2 "https://app.local" leakCampaign 10 "a@b.c" [("c", "TOKEN"), ("x", "1")])
      = some true := by decide

/-- A JSON value as the portable token carries them: the encoded object holds
only strings and booleans. -/
inductive JVal where
  | jstr (s : String)
  | jbool (b : Bool)
deriving DecidableEq, Repr

/-- A parsed JSON object: ordered key/value fields. -/
abbrev JObj := List (String × JVal)

/-- Field access `data.k`. -/
def jLookup (data : JObj) (k : String) : Option JVal :=
  (data.find? (fun p => p.1 == k)).map (fun p => p.2)

/-- JS truthiness of an accessed field: missing (`undefined`), the empty
string and `false` are falsy. -/
def jTruthy : Option JVal → Bool
  | some (.jstr s) => s != ""
  | some (.jbool b) => b
  | none => false

/-- JS `data.k || fallback` where a string is expected: a missing key and an
empty string both fall back (tokens produced by `encodePortable` hold strings
under every string key, so no other shape reaches the fallback). -/
def jStrOr (data : JObj) (k : String) (fallback : String) : String :=
  match jLookup data k with
  | some (.jstr s) => if s = "" then fallback else s
  | _ => fallback

/-- JS `data.k !== false`. -/
def jNeqFalse (data : JObj) (k : String) : Bool :=
  match jLookup data k with
  | some (.jbool false) => false
  | _ => true

/-- The object `CampaignEditor` serializes into the `?c=` token (lines
200-209); the serialization and transport around it are `jsonStringify`,
`percentEncode` and the decoding pipeline below. -/
def encodePortable (c : Campaign) : JObj :=
  [("brandName", .jstr c.brandName),
   ("accentHex", .jstr c.accentHex),
   ("thankYou", .jstr c.thankYou),
   ("promoterUrl", .jstr c.promoterUrl),
   ("passiveUrl", .jstr c.passiveUrl),
   ("detractorUrl", .jstr c.detractorUrl),
   ("webhookUrl", .jstr c.webhookUrl),
   ("isActive", .jbool (c.isActive != false))]

/-- The ephemeral campaign `Survey` synthesizes from a decoded token (lines
299-316): id from the path (or a fresh one), string fields with their `||`
fallbacks, `isActive` unless explicitly `false`, marked ephemeral. -/
def decodePortable (campaignId freshId : String) (data : JObj) : Campaign :=
  { id := if campaignId = "" then freshId else campaignId,
    name := if jTruthy (jLookup data "brandName") then
        "Campagne partagée – " ++ jStrOr data "brandName" ""
      else "Campagne partagée",
    audience := "clients",
    brandName := jStrOr data "brandName" "",
    accentHex := jStrOr data "accentHex" "#2563eb",
    thankYou := jStrOr data "thankYou" "Merci!",
    promoterUrl := jStrOr data "promoterUrl" "",
    passiveUrl := jStrOr data "passiveUrl" "",
    detractorUrl := jStrOr data "detractorUrl" "",
    webhookUrl := jStrOr data "webhookUrl" "",
    isActive := jNeqFalse data "isActive",
    ephemeral := true }



/-- Value of one hex digit char (JS accepts both cases). -/
def hexValC (ch : Char) : Option ℕ :=
  let n := ch.toNat
  if 48 ≤ n ∧ n ≤ 57 then some (n - 48)
  else if 65 ≤ n ∧ n ≤ 70 then some (n - 55)
  else if 97 ≤ n ∧ n ≤ 102 then some (n - 87)
  else none

/-- Uppercase hex digit, as `encodeURIComponent` emits them. -/
def hexDigitU (n : ℕ) : Char :=
  if n = 0 then '0' else if n = 1 then '1' else if n = 2 then '2' else if n = 3 then '3'
  else if n = 4 then '4' else if n = 5 then '5' else if n = 6 then '6' else if n = 7 then '7'
  else if n = 8 then '8' else if n = 9 then '9' else if n = 10 then 'A' else if n = 11 then 'B'
  else if n = 12 then 'C' else if n = 13 then 'D' else if n = 14 then 'E' else 'F'

/-- Lowercase hex digit, as `JSON.stringify` emits them in `\u` escapes. -/
def hexDigitL (n : ℕ) : Char :=
  if n = 0 then '0' else if n = 1 then '1' else if n = 2 then '2' else if n = 3 then '3'
  else if n = 4 then '4' else if n = 5 then '5' else if n = 6 then '6' else if n = 7 then '7'
  else if n = 8 then '8' else if n = 9 then '9' else if n = 10 then 'a' else if n = 11 then 'b'
  else if n = 12 then 'c' else if n = 13 then 'd' else if n = 14 then 'e' else 'f'

/-- One byte of a `%XX` escape. -/
def hexByte (a b : Char) : Option ℕ := do
  let x ← hexValC a
  let y ← hexValC b
  pure (x * 16 + y)

/-- UTF-8 bytes of a code point given as a number. -/
def encBytesN (n : ℕ) : List ℕ :=
  if n < 0x80 then [n]
  else if n < 0x800 then [0xC0 + n / 64, 0x80 + n % 64]
  else if n < 0x10000 then [0xE0 + n / 4096, 0x80 + n / 64 % 64, 0x80 + n % 64]
  else [0xF0 + n / 262144, 0x80 + n / 4096 % 64, 0x80 + n / 64 % 64, 0x80 + n % 64]

/-- UTF-8 bytes of one character. -/
def utf8Bytes (ch : Char) : List ℕ := encBytesN ch.toNat

/-- The characters `encodeURIComponent` leaves unescaped:
`A-Z a-z 0-9 - _ . ! ~ * ( )` and the apostrophe (code 39). -/
def isUnreservedChar (ch : Char) : Bool :=
  let n := ch.toNat
  decide ((65 ≤ n ∧ n ≤ 90) ∨ (97 ≤ n ∧ n ≤ 122) ∨ (48 ≤ n ∧ n ≤ 57)
    ∨ n = 45 ∨ n = 95 ∨ n = 46 ∨ n = 33 ∨ n = 126 ∨ n = 42 ∨ n = 39 ∨ n = 40 ∨ n = 41)

/-- `%XX` escape of one byte. -/
def byteEscape (b : ℕ) : List Char := ['%', hexDigitU (b / 16), hexDigitU (b % 16)]

/-- `encodeURIComponent` over one character. -/
def percentEncodeChar (ch : Char) : List Char :=
  if isUnreservedChar ch then [ch] else (utf8Bytes ch).flatMap byteEscape

/-- `encodeURIComponent` (applied to the serialized token at line 200). -/
def percentEncode (s : String) : String := ⟨s.data.flatMap percentEncodeChar⟩

/-- First stage of percent-decoding: each `%XX` becomes a byte, every other
character passes through; a `%` not followed by two hex digits is the
`URIError` of `decodeURIComponent`. -/
def lexPercent : List Char → Option (List (ℕ ⊕ Char))
  | [] => some []
  | ch :: rest =>
    if ch = '%' then
      match rest with
      | a :: b :: rest2 => do
        let v ← hexByte a b
        let r ← lexPercent rest2
        pure (.inl v :: r)
      | _ => none
    else do
      let r ← lexPercent rest
      pure (.inr ch :: r)

/-- A continuation byte (`0x80-0xBF`) at a lookahead position, if any. -/
def contByte (t : Option (ℕ ⊕ Char)) : Option ℕ :=
  match t with
  | some (.inl b) => if 0x80 ≤ b ∧ b < 0xC0 then some b else none
  | _ => none

/-- Core of one UTF-8 sequence read: the decoded code point and how many
continuation tokens it consumed, validating the sequence (truncated,
overlong, surrogate and out-of-range sequences are rejected, as the
ECMAScript `Decode` algorithm does). -/
def decodeSeqCore (b0 : ℕ) (rest : List (ℕ ⊕ Char)) : Option (ℕ × ℕ) :=
  if b0 < 0x80 then some (b0, 0)
  else if b0 < 0xC2 then none
  else if b0 < 0xE0 then
    match contByte rest.head? with
    | some b1 => some ((b0 - 0xC0) * 64 + (b1 - 0x80), 1)
    | none => none
  else if b0 < 0xF0 then
    match contByte rest.head?, contByte (rest.drop 1).head? with
    | some b1, some b2 =>
      if 0x800 ≤ (b0 - 0xE0) * 4096 + (b1 - 0x80) * 64 + (b2 - 0x80)
          ∧ ((b0 - 0xE0) * 4096 + (b1 - 0x80) * 64 + (b2 - 0x80) < 0xD800
             ∨ 0xE000 ≤ (b0 - 0xE0) * 4096 + (b1 - 0x80) * 64 + (b2 - 0x80)) then
        some ((b0 - 0xE0) * 4096 + (b1 - 0x80) * 64 + (b2 - 0x80), 2)
      else none
    | _, _ => none
  else if b0 < 0xF5 then
    match contByte rest.head?, contByte (rest.drop 1).head?, contByte (rest.drop 2).head? with
    | some b1, some b2, some b3 =>
      if 0x10000 ≤ (b0 - 0xF0) * 262144 + (b1 - 0x80) * 4096 + (b2 - 0x80) * 64 + (b3 - 0x80)
          ∧ (b0 - 0xF0) * 262144 + (b1 - 0x80) * 4096 + (b2 - 0x80) * 64 + (b3 - 0x80)
            < 0x110000 then
        some ((b0 - 0xF0) * 262144 + (b1 - 0x80) * 4096 + (b2 - 0x80) * 64 + (b3 - 0x80), 3)
      else none
    | _, _, _ => none
  else none

/-- Reading of one UTF-8 sequence: the decoded code point and the remaining
tokens. -/
def decodeSeq (b0 : ℕ) (rest : List (ℕ ⊕ Char)) : Option (ℕ × List (ℕ ⊕ Char)) :=
  (decodeSeqCore b0 rest).map (fun p => (p.1, rest.drop p.2))

/-- Second stage of percent-decoding, fuelled for structural recursion (the
wrapper always supplies enough fuel): assemble escape bytes into code points,
pass plain characters through. -/
def utf8AssembleF : ℕ → List (ℕ ⊕ Char) → Option (List Char)
  | _, [] => some []
  | 0, _ :: _ => none
  | fuel + 1, .inr ch :: rest => (utf8AssembleF fuel rest).map (ch :: ·)
  | fuel + 1, .inl b0 :: rest =>
    match decodeSeq b0 rest with
    | some (n, rest2) => (utf8AssembleF fuel rest2).map (Char.ofNat n :: ·)
    | none => none

/-- Second stage of percent-decoding: assemble escape bytes into code points,
validating UTF-8. -/
def utf8Assemble (toks : List (ℕ ⊕ Char)) : Option (List Char) :=
  utf8AssembleF toks.length toks

/-- Strict percent-decoding over characters. -/
def percentDecodeL (l : List Char) : Option (List Char) :=
  (lexPercent l).bind utf8Assemble

/-- `decodeURIComponent` (line 301): strict percent-decoding; `none` is the
thrown `URIError`. -/
def decodeURIComponentM (s : String) : Option String :=
  (percentDecodeL s.data).map (String.mk ·)

/-- The `+`-to-space rule of `application/x-www-form-urlencoded` values. -/
def plusToSpace (l : List Char) : List Char :=
  l.map (fun ch => if ch = '+' then ' ' else ch)

/-- Decoding of one query-string value by `URLSearchParams` in `hashRoute`
(line 42): `+` to space, then percent-decoding.  (On invalid sequences the
browser substitutes U+FFFD instead of failing; the tokens this program puts in
URLs are valid `encodeURIComponent` images, on which the two behaviours
agree, so the strict decoder is used for them.) -/
def urlValueDecode (s : String) : Option String :=
  (percentDecodeL (plusToSpace s.data)).map (String.mk ·)




/-- A string is its character list repackaged. -/
theorem strEta (s : String) : String.mk s.data = s := by cases s; rfl

/-- Every character's code point is a valid scalar value. -/
theorem charValid (c : Char) :
    c.toNat < 0xd800 ∨ (0xdfff < c.toNat ∧ c.toNat < 0x110000) := by
  have h := c.valid
  simp [UInt32.isValidChar, Nat.isValidChar] at h
  exact h

/-- Hex digits read back their value. -/
theorem hexValC_hexDigitU (n : ℕ) (h : n < 16) : hexValC (hexDigitU n) = some n := by
  interval_cases n <;> decide

/-- Lowercase hex digits read back their value. -/
theorem hexValC_hexDigitL (n : ℕ) (h : n < 16) : hexValC (hexDigitL n) = some n := by
  interval_cases n <;> decide

/-- A two-digit escape body reads back its byte. -/
theorem hexByte_digits (b : ℕ) (h : b < 256) :
    hexByte (hexDigitU (b / 16)) (hexDigitU (b % 16)) = some b := by
  have h1 : b / 16 < 16 := by omega
  have h2 : b % 16 < 16 := by omega
  simp [hexByte, hexValC_hexDigitU _ h1, hexValC_hexDigitU _ h2]
  omega

/-- Lexing passes a plain character through. -/
theorem lexPercent_cons_plain (ch : Char) (h : ch ≠ '%') (t : List Char) :
    lexPercent (ch :: t) = (lexPercent t).map (Sum.inr ch :: ·) := by
  rw [lexPercent.eq_def]
  simp only [if_neg h]
  rcases lexPercent t with _ | r <;> rfl

/-- Lexing turns one byte escape into its byte. -/
theorem lexPercent_escape_cons (b : ℕ) (hb : b < 256) (t : List Char) :
    lexPercent (byteEscape b ++ t) = (lexPercent t).map (Sum.inl b :: ·) := by
  rw [byteEscape]
  show lexPercent ('%' :: hexDigitU (b / 16) :: hexDigitU (b % 16) :: t) = _
  rw [lexPercent.eq_def]
  simp only [if_pos rfl]
  rw [hexByte_digits b hb]
  rcases lexPercent t with _ | r <;> rfl

/-- Lexing turns a run of byte escapes into those bytes. -/
theorem lexPercent_escapes (bs : List ℕ) (hb : ∀ b ∈ bs, b < 256) (t : List Char) :
    lexPercent (bs.flatMap byteEscape ++ t)
      = (lexPercent t).map (bs.map Sum.inl ++ ·) := by
  induction bs with
  | nil =>
    simp only [List.flatMap_nil, List.nil_append, List.map_nil]
    rcases lexPercent t with _ | r <;> rfl
  | cons b bs ih =>
    have hb0 : b < 256 := hb b (by simp)
    have ihb := ih (fun x hx => hb x (by simp [hx]))
    rw [List.flatMap_cons, List.append_assoc, lexPercent_escape_cons b hb0, ihb,
      Option.map_map]
    rfl

/-- A successful sequence read consumes tokens. -/
theorem decodeSeq_len (b0 : ℕ) (rest : List (ℕ ⊕ Char)) (p : ℕ × List (ℕ ⊕ Char))
    (h : decodeSeq b0 rest = some p) : p.2.length ≤ rest.length := by
  rw [decodeSeq] at h
  rcases hc : decodeSeqCore b0 rest with _ | q
  · rw [hc] at h
    exact Option.noConfusion h
  · rw [hc] at h
    simp only [Option.map_some', Option.some.injEq] at h
    subst h
    simp only [List.length_drop]
    omega

/-- The fuelled assembler does not depend on the fuel once it suffices. -/
theorem utf8AssembleF_fuel (fuel₁ : ℕ) :
    ∀ (fuel₂ : ℕ) (toks : List (ℕ ⊕ Char)), toks.length ≤ fuel₁ → toks.length ≤ fuel₂ →
      utf8AssembleF fuel₁ toks = utf8AssembleF fuel₂ toks := by
  induction fuel₁ with
  | zero =>
    intro fuel₂ toks h₁ h₂
    cases toks with
    | nil => cases fuel₂ <;> rfl
    | cons t ts => simp at h₁
  | succ f ih =>
    intro fuel₂ toks h₁ h₂
    cases toks with
    | nil => cases fuel₂ <;> rfl
    | cons tok rest =>
      cases fuel₂ with
      | zero => simp at h₂
      | succ f₂ =>
        have hr₁ : rest.length ≤ f := by
          simp only [List.length_cons] at h₁
          omega
        have hr₂ : rest.length ≤ f₂ := by
          simp only [List.length_cons] at h₂
          omega
        cases tok with
        | inr ch =>
          rw [utf8AssembleF, utf8AssembleF, ih f₂ rest hr₁ hr₂]
        | inl b0 =>
          rw [utf8AssembleF, utf8AssembleF]
          rcases hd : decodeSeq b0 rest with _ | p
          · rfl
          · have hlen := decodeSeq_len b0 rest p hd
            obtain ⟨n, rest2⟩ := p
            have hlen2 : rest2.length ≤ rest.length := hlen
            show (utf8AssembleF f rest2).map _ = (utf8AssembleF f₂ rest2).map _
            rw [ih f₂ rest2 (by omega) (by omega)]

/-- Assembly step: a character that was never escaped. -/
theorem utf8Assemble_inr (ch : Char) (ts : List (ℕ ⊕ Char)) :
    utf8Assemble (Sum.inr ch :: ts) = (utf8Assemble ts).map (ch :: ·) := by
  rw [utf8Assemble, utf8Assemble]
  show utf8AssembleF (ts.length + 1) (Sum.inr ch :: ts) = _
  rw [utf8AssembleF]

/-- Assembly step: one full escape sequence. -/
theorem utf8Assemble_seq (b0 : ℕ) (ts : List (ℕ ⊕ Char)) (n : ℕ)
    (rest2 : List (ℕ ⊕ Char)) (h : decodeSeq b0 ts = some (n, rest2)) :
    utf8Assemble (Sum.inl b0 :: ts) = (utf8Assemble rest2).map (Char.ofNat n :: ·) := by
  have hlen := decodeSeq_len b0 ts (n, rest2) h
  rw [utf8Assemble, utf8Assemble]
  show utf8AssembleF (ts.length + 1) (Sum.inl b0 :: ts) = _
  rw [utf8AssembleF, h]
  show (utf8AssembleF ts.length rest2).map _ = _
  rw [utf8AssembleF_fuel ts.length rest2.length rest2 hlen (Nat.le_refl _)]

/-- Sequence read: a single byte. -/
theorem decodeSeq_ascii (b0 : ℕ) (h : b0 < 0x80) (ts : List (ℕ ⊕ Char)) :
    decodeSeq b0 ts = some (b0, ts) := by
  rw [decodeSeq, decodeSeqCore, if_pos h]
  simp

/-- Sequence read: two bytes. -/
theorem decodeSeq_two (b0 b1 : ℕ) (ts : List (ℕ ⊕ Char))
    (hA : ¬ b0 < 0x80) (hB : ¬ b0 < 0xC2) (hC : b0 < 0xE0)
    (hD : 0x80 ≤ b1 ∧ b1 < 0xC0) :
    decodeSeq b0 (Sum.inl b1 :: ts) = some ((b0 - 0xC0) * 64 + (b1 - 0x80), ts) := by
  rw [decodeSeq, decodeSeqCore]
  simp only [if_neg hA, if_neg hB, if_pos hC, List.head?_cons, contByte, if_pos hD,
    Option.map_some', List.drop_succ_cons, List.drop_zero]

/-- Sequence read: three bytes. -/
theorem decodeSeq_three (b0 b1 b2 : ℕ) (ts : List (ℕ ⊕ Char))
    (hA : ¬ b0 < 0x80) (hB : ¬ b0 < 0xC2) (hC : ¬ b0 < 0xE0) (hD : b0 < 0xF0)
    (hE : (0x80 ≤ b1 ∧ b1 < 0xC0) ∧ (0x80 ≤ b2 ∧ b2 < 0xC0))
    (hF : 0x800 ≤ (b0 - 0xE0) * 4096 + (b1 - 0x80) * 64 + (b2 - 0x80)
          ∧ ((b0 - 0xE0) * 4096 + (b1 - 0x80) * 64 + (b2 - 0x80) < 0xD800
             ∨ 0xE000 ≤ (b0 - 0xE0) * 4096 + (b1 - 0x80) * 64 + (b2 - 0x80))) :
    decodeSeq b0 (Sum.inl b1 :: Sum.inl b2 :: ts)
      = some ((b0 - 0xE0) * 4096 + (b1 - 0x80) * 64 + (b2 - 0x80), ts) := by
  rw [decodeSeq, decodeSeqCore]
  simp only [if_neg hA, if_neg hB, if_neg hC, if_pos hD, List.head?_cons,
    List.drop_succ_cons, List.drop_zero, contByte, if_pos hE.1, if_pos hE.2, if_pos hF,
    Option.map_some']

/-- Sequence read: four bytes. -/
theorem decodeSeq_four (b0 b1 b2 b3 : ℕ) (ts : List (ℕ ⊕ Char))
    (hA : ¬ b0 < 0x80) (hB : ¬ b0 < 0xC2) (hC : ¬ b0 < 0xE0) (hD : ¬ b0 < 0xF0)
    (hE : b0 < 0xF5)
    (hF : (0x80 ≤ b1 ∧ b1 < 0xC0) ∧ ((0x80 ≤ b2 ∧ b2 < 0xC0) ∧ (0x80 ≤ b3 ∧ b3 < 0xC0)))
    (hG : 0x10000 ≤ (b0 - 0xF0) * 262144 + (b1 - 0x80) * 4096 + (b2 - 0x80) * 64 + (b3 - 0x80)
          ∧ (b0 - 0xF0) * 262144 + (b1 - 0x80) * 4096 + (b2 - 0x80) * 64 + (b3 - 0x80)
            < 0x110000) :
    decodeSeq b0 (Sum.inl b1 :: Sum.inl b2 :: Sum.inl b3 :: ts)
      = some ((b0 - 0xF0) * 262144 + (b1 - 0x80) * 4096 + (b2 - 0x80) * 64 + (b3 - 0x80), ts) := by
  rw [decodeSeq, decodeSeqCore]
  simp only [if_neg hA, if_neg hB, if_neg hC, if_neg hD, if_pos hE, List.head?_cons,
    List.drop_succ_cons, List.drop_zero, contByte, if_pos hF.1, if_pos hF.2.1,
    if_pos hF.2.2, if_pos hG, Option.map_some']

/-- Assembly reconstructs the character a valid scalar value encodes. -/
theorem utf8Assemble_encBytesN (n : ℕ)
    (hval : n < 0xd800 ∨ (0xdfff < n ∧ n < 0x110000)) (ts : List (ℕ ⊕ Char)) :
    utf8Assemble ((encBytesN n).map Sum.inl ++ ts)
      = (utf8Assemble ts).map (Char.ofNat n :: ·) := by
  by_cases h1 : n < 0x80
  · rw [encBytesN, if_pos h1]
    simp only [List.map_cons, List.map_nil, List.cons_append, List.nil_append]
    rw [utf8Assemble_seq n ts n ts (decodeSeq_ascii n h1 ts)]
  · by_cases h2 : n < 0x800
    · rw [encBytesN, if_neg h1, if_pos h2]
      simp only [List.map_cons, List.map_nil, List.cons_append, List.nil_append]
      rw [utf8Assemble_seq (0xC0 + n / 64) (Sum.inl (0x80 + n % 64) :: ts)
        ((0xC0 + n / 64 - 0xC0) * 64 + (0x80 + n % 64 - 0x80)) ts
        (decodeSeq_two (0xC0 + n / 64) (0x80 + n % 64) ts
          (by omega) (by omega) (by omega) (by omega))]
      rw [show (0xC0 + n / 64 - 0xC0) * 64 + (0x80 + n % 64 - 0x80) = n from by omega]
    · by_cases h3 : n < 0x10000
      · rw [encBytesN, if_neg h1, if_neg h2, if_pos h3]
        simp only [List.map_cons, List.map_nil, List.cons_append, List.nil_append]
        rw [utf8Assemble_seq (0xE0 + n / 4096)
          (Sum.inl (0x80 + n / 64 % 64) :: Sum.inl (0x80 + n % 64) :: ts)
          ((0xE0 + n / 4096 - 0xE0) * 4096 + (0x80 + n / 64 % 64 - 0x80) * 64
            + (0x80 + n % 64 - 0x80)) ts
          (decodeSeq_three (0xE0 + n / 4096) (0x80 + n / 64 % 64) (0x80 + n % 64) ts
            (by omega) (by omega) (by omega) (by omega) (by omega) (by omega))]
        rw [show (0xE0 + n / 4096 - 0xE0) * 4096 + (0x80 + n / 64 % 64 - 0x80) * 64
            + (0x80 + n % 64 - 0x80) = n from by omega]
      · rw [encBytesN, if_neg h1, if_neg h2, if_neg h3]
        simp only [List.map_cons, List.map_nil, List.cons_append, List.nil_append]
        rw [utf8Assemble_seq (0xF0 + n / 262144)
          (Sum.inl (0x80 + n / 4096 % 64) :: Sum.inl (0x80 + n / 64 % 64)
            :: Sum.inl (0x80 + n % 64) :: ts)
          ((0xF0 + n / 262144 - 0xF0) * 262144 + (0x80 + n / 4096 % 64 - 0x80) * 4096
            + (0x80 + n / 64 % 64 - 0x80) * 64 + (0x80 + n % 64 - 0x80)) ts
          (decodeSeq_four (0xF0 + n / 262144) (0x80 + n / 4096 % 64) (0x80 + n / 64 % 64)
            (0x80 + n % 64) ts
            (by omega) (by omega) (by omega) (by omega) (by omega) (by omega) (by omega))]
        rw [show (0xF0 + n / 262144 - 0xF0) * 262144 + (0x80 + n / 4096 % 64 - 0x80) * 4096
            + (0x80 + n / 64 % 64 - 0x80) * 64 + (0x80 + n % 64 - 0x80) = n from by omega]

/-- The bytes of a valid scalar value are bytes. -/
theorem encBytesN_lt (n : ℕ) (hval : n < 0x110000) : ∀ b ∈ encBytesN n, b < 256 := by
  intro b hb
  rw [encBytesN] at hb
  split at hb
  · simp at hb; omega
  · split at hb
    · simp at hb; rcases hb with h | h <;> omega
    · split at hb
      · simp at hb; rcases hb with h | h | h <;> omega
      · simp at hb; rcases hb with h | h | h | h <;> omega

/-- No character kept by `encodeURIComponent` is a percent sign. -/
theorem unreserved_ne_percent (ch : Char) (h : isUnreservedChar ch = true) : ch ≠ '%' := by
  intro he
  subst he
  simp [isUnreservedChar] at h

/-- Strict percent-decoding inverts `encodeURIComponent` on any string. -/
theorem percentDecodeL_encode (l : List Char) :
    percentDecodeL (l.flatMap percentEncodeChar) = some l := by
  induction l with
  | nil => rfl
  | cons ch l ih =>
    rcases hlp : lexPercent (l.flatMap percentEncodeChar) with _ | toks
    · rw [percentDecodeL, hlp] at ih
      simp at ih
    · have ih2 : utf8Assemble toks = some l := by
        rw [percentDecodeL, hlp] at ih
        exact ih
      by_cases hu : isUnreservedChar ch
      · have hne := unreserved_ne_percent ch hu
        rw [List.flatMap_cons, percentEncodeChar, if_pos hu]
        show percentDecodeL (ch :: l.flatMap percentEncodeChar) = _
        rw [percentDecodeL, lexPercent_cons_plain ch hne, hlp]
        show utf8Assemble (Sum.inr ch :: toks) = some (ch :: l)
        rw [utf8Assemble_inr, ih2]
        rfl
      · have hval := charValid ch
        have hlt : ch.toNat < 0x110000 := by rcases hval with h | h <;> omega
        rw [List.flatMap_cons, percentEncodeChar, if_neg hu, percentDecodeL, utf8Bytes,
          lexPercent_escapes _ (encBytesN_lt _ hlt) _, hlp]
        show utf8Assemble ((encBytesN ch.toNat).map Sum.inl ++ toks) = some (ch :: l)
        rw [utf8Assemble_encBytesN ch.toNat hval, ih2, Char.ofNat_toNat]
        rfl

/-- Replacing `+` by a space changes nothing in a plus-free string. -/
theorem plusToSpace_of_not_mem (l : List Char) (h : ¬ ('+' ∈ l)) : plusToSpace l = l := by
  induction l with
  | nil => rfl
  | cons ch t ih =>
    have h1 : ¬ (ch = '+') := fun he => h (by simp [he])
    have h2 : ¬ ('+' ∈ t) := fun he => h (by simp [he])
    show ((if ch = '+' then ' ' else ch) :: plusToSpace t) = ch :: t
    rw [if_neg h1, ih h2]

/-- A hex digit is never a plus sign. -/
theorem hexDigitU_ne_plus (n : ℕ) (h : n < 16) : hexDigitU n ≠ '+' := by
  interval_cases n <;> decide

/-- `encodeURIComponent` never emits a plus sign. -/
theorem plus_not_mem_encode (l : List Char) : ¬ ('+' ∈ l.flatMap percentEncodeChar) := by
  intro hmem
  rw [List.mem_flatMap] at hmem
  obtain ⟨ch, _, hin⟩ := hmem
  rw [percentEncodeChar] at hin
  split at hin
  · next hu =>
    simp only [List.mem_singleton] at hin
    rw [← hin] at hu
    exact absurd hu (by decide)
  · rw [List.mem_flatMap] at hin
    obtain ⟨b, hbmem, hinb⟩ := hin
    have hlt : ch.toNat < 0x110000 := by rcases charValid ch with hv | hv <;> omega
    have hb : b < 256 := encBytesN_lt ch.toNat hlt b hbmem
    rw [byteEscape] at hinb
    simp only [List.mem_cons, List.not_mem_nil, or_false] at hinb
    rcases hinb with h | h | h
    · exact absurd h (by decide)
    · exact (hexDigitU_ne_plus _ (by omega)) h.symm
    · exact (hexDigitU_ne_plus _ (by omega)) h.symm

/-- The `URLSearchParams` value decoding of `hashRoute` inverts the
`encodeURIComponent` applied when the portable link was built. -/
theorem urlValueDecode_percentEncode (s : String) :
    urlValueDecode (percentEncode s) = some s := by
  rw [urlValueDecode, percentEncode]
  show (percentDecodeL (plusToSpace (s.data.flatMap percentEncodeChar))).map _ = _
  rw [plusToSpace_of_not_mem _ (plus_not_mem_encode _), percentDecodeL_encode]
  show some (String.mk s.data) = some s
  rw [strEta]

/-- Strict percent-decoding is the identity on a percent-free string. -/
theorem percentDecodeL_id (l : List Char) (h : ¬ ('%' ∈ l)) :
    percentDecodeL l = some l := by
  induction l with
  | nil => rfl
  | cons ch t ih =>
    have h1 : ch ≠ '%' := fun he => h (by simp [he])
    have h2 : ¬ ('%' ∈ t) := fun he => h (by simp [he])
    have ih2 := ih h2
    rcases hlp : lexPercent t with _ | toks
    · rw [percentDecodeL, hlp] at ih2
      simp at ih2
    · have ih3 : utf8Assemble toks = some t := by
        rw [percentDecodeL, hlp] at ih2
        exact ih2
      rw [percentDecodeL, lexPercent_cons_plain ch h1, hlp]
      show utf8Assemble (Sum.inr ch :: toks) = some (ch :: t)
      rw [utf8Assemble_inr, ih3]
      rfl



/-- `JSON.stringify` escaping of one character inside a string literal:
quote and backslash are escaped, control characters get their named escape or
a lowercase `\u00XX`, everything else (non-ASCII included) passes through. -/
def jsonEscapeChar (ch : Char) : List Char :=
  if ch = '"' then ['\\', '"']
  else if ch = '\\' then ['\\', '\\']
  else if ch.toNat < 0x20 then
    if ch.toNat = 8 then ['\\', 'b']
    else if ch.toNat = 9 then ['\\', 't']
    else if ch.toNat = 10 then ['\\', 'n']
    else if ch.toNat = 12 then ['\\', 'f']
    else if ch.toNat = 13 then ['\\', 'r']
    else ['\\', 'u', '0', '0', hexDigitL (ch.toNat / 16), hexDigitL (ch.toNat % 16)]
  else [ch]

/-- `JSON.stringify` of one string value. -/
def jsonStringifyStr (s : String) : List Char :=
  '"' :: (s.data.flatMap jsonEscapeChar ++ ['"'])

/-- `JSON.stringify` of one token value (the token holds strings and
booleans). -/
def jsonValText : JVal → List Char
  | .jstr s => jsonStringifyStr s
  | .jbool true => ['t', 'r', 'u', 'e']
  | .jbool false => ['f', 'a', 'l', 's', 'e']

/-- `JSON.stringify` of the members of an object, comma-separated. -/
def jsonMembersText : JObj → List Char
  | [] => []
  | [(k, v)] => jsonStringifyStr k ++ (':' :: jsonValText v)
  | (k, v) :: rest => jsonStringifyStr k ++ (':' :: jsonValText v) ++ (',' :: jsonMembersText rest)

/-- `JSON.stringify` of the token object (line 200). -/
def jsonStringify (fields : JObj) : String :=
  ⟨'{' :: (jsonMembersText fields ++ ['}'])⟩

/-- Value of a single-character JSON escape. -/
def unescapeChar (e : Char) : Option Char :=
  if e = '"' then some '"'
  else if e = '\\' then some '\\'
  else if e = '/' then some '/'
  else if e = 'b' then some (Char.ofNat 8)
  else if e = 't' then some (Char.ofNat 9)
  else if e = 'n' then some (Char.ofNat 10)
  else if e = 'f' then some (Char.ofNat 12)
  else if e = 'r' then some (Char.ofNat 13)
  else none

/-- Four hex digits at the head of the input, as one number. -/
def readHex4 (l : List Char) : Option ℕ :=
  match l.head?, (l.drop 1).head?, (l.drop 2).head?, (l.drop 3).head? with
  | some a, some b, some c, some d =>
    (hexValC a).bind fun x => (hexValC b).bind fun y =>
      (hexValC c).bind fun z => (hexValC d).map fun w => ((x * 16 + y) * 16 + z) * 16 + w
  | _, _, _, _ => none

/-- JSON string-literal body parser (after the opening quote), fuelled for
structural recursion — the callers always supply enough fuel.  Returns the
unescaped content and the input after the closing quote.  `\u` escapes for
surrogate halves are rejected (`JSON.parse` would pair them; the texts this
program parses only carry `\u00XX` control escapes). -/
def parseJStrF : ℕ → List Char → Option (List Char × List Char)
  | 0, _ => none
  | _ + 1, [] => none
  | fuel + 1, ch :: rest =>
    if ch = '"' then some ([], rest)
    else if ch = '\\' then
      match rest.head? with
      | none => none
      | some e =>
        if e = 'u' then
          match readHex4 (rest.drop 1) with
          | some n =>
            if n < 0xD800 ∨ 0xE000 ≤ n then
              (parseJStrF fuel (rest.drop 5)).map (fun p => (Char.ofNat n :: p.1, p.2))
            else none
          | none => none
        else
          match unescapeChar e with
          | some c => (parseJStrF fuel (rest.drop 1)).map (fun p => (c :: p.1, p.2))
          | none => none
    else (parseJStrF fuel rest).map (fun p => (ch :: p.1, p.2))

/-- JSON value parser for the token grammar: a string, `true` or `false`. -/
def parseJValF (fuel : ℕ) (l : List Char) : Option (JVal × List Char) :=
  match l.head? with
  | some ch =>
    if ch = '"' then (parseJStrF fuel (l.drop 1)).map (fun p => (JVal.jstr ⟨p.1⟩, p.2))
    else if l.take 4 = ['t', 'r', 'u', 'e'] then some (.jbool true, l.drop 4)
    else if l.take 5 = ['f', 'a', 'l', 's', 'e'] then some (.jbool false, l.drop 5)
    else none
  | none => none

/-- JSON object-member parser (after the opening brace), fuelled: a
non-empty, comma-separated member list closed by `}`. -/
def parseJMembersF : ℕ → List Char → Option (JObj × List Char)
  | 0, _ => none
  | fuel + 1, l =>
    match l.head? with
    | some ch =>
      if ch = '"' then
        match parseJStrF fuel (l.drop 1) with
        | some (k, r1) =>
          match r1.head? with
          | some c2 =>
            if c2 = ':' then
              match parseJValF fuel (r1.drop 1) with
              | some (v, r3) =>
                match r3.head? with
                | some c3 =>
                  if c3 = ',' then
                    (parseJMembersF fuel (r3.drop 1)).map (fun p => ((⟨k⟩, v) :: p.1, p.2))
                  else if c3 = '}' then some ([(⟨k⟩, v)], r3.drop 1)
                  else none
                | none => none
              | none => none
            else none
          | none => none
        | none => none
      else none
    | none => none

/-- `JSON.parse` (line 301) on the token grammar: an object of string and
boolean members, with nothing after the closing brace. -/
def jsonParse (s : String) : Option JObj :=
  match s.data.head? with
  | some ch =>
    if ch = '{' then
      if s.data.drop 1 = ['}'] then some []
      else
        match parseJMembersF (s.data.length + 1) (s.data.drop 1) with
        | some (ms, r) => if r = [] then some ms else none
        | none => none
    else none
  | none => none




/-- One plain character inside a string literal. -/
theorem parseJStrF_plain_step (f : ℕ) (ch : Char) (rest : List Char)
    (h1 : ¬ ch = '"') (h2 : ¬ ch = '\\') :
    parseJStrF (f + 1) (ch :: rest)
      = (parseJStrF f rest).map (fun p => (ch :: p.1, p.2)) := by
  rw [parseJStrF]
  simp only [if_neg h1, if_neg h2]

/-- One single-character escape inside a string literal. -/
theorem parseJStrF_esc_step (f : ℕ) (e target : Char) (rest : List Char)
    (he : ¬ e = 'u') (hu : unescapeChar e = some target) :
    parseJStrF (f + 1) ('\\' :: e :: rest)
      = (parseJStrF f rest).map (fun p => (target :: p.1, p.2)) := by
  rw [parseJStrF]
  simp only [if_neg (show ¬ ('\\' = '"') by decide), if_pos (show ('\\':Char) = '\\' from rfl),
    if_true, List.head?_cons, if_neg he, hu, List.drop_succ_cons, List.drop_zero]

/-- Four explicit hex digits read as one number. -/
theorem readHex4_cons (a b c d : Char) (rest : List Char) :
    readHex4 (a :: b :: c :: d :: rest)
      = (hexValC a).bind fun x => (hexValC b).bind fun y =>
          (hexValC c).bind fun z => (hexValC d).map fun w =>
            ((x * 16 + y) * 16 + z) * 16 + w := rfl

/-- One `\u00XX` escape inside a string literal. -/
theorem parseJStrF_u_step (f : ℕ) (n : ℕ) (hn : n < 0x20) (rest : List Char) :
    parseJStrF (f + 1)
        ('\\' :: 'u' :: '0' :: '0' :: hexDigitL (n / 16) :: hexDigitL (n % 16) :: rest)
      = (parseJStrF f rest).map (fun p => (Char.ofNat n :: p.1, p.2)) := by
  have hx : readHex4 ('0' :: '0' :: hexDigitL (n / 16) :: hexDigitL (n % 16) :: rest)
      = some n := by
    rw [readHex4_cons]
    rw [show hexValC '0' = some 0 from rfl, hexValC_hexDigitL _ (by omega),
      hexValC_hexDigitL _ (by omega)]
    show some (((0 * 16 + 0) * 16 + n / 16) * 16 + n % 16) = some n
    exact congrArg some (by omega)
  rw [parseJStrF]
  simp only [if_neg (show ¬ ('\\' = '"') by decide), if_pos (show ('\\':Char) = '\\' from rfl),
    if_true, List.head?_cons, if_pos (show ('u':Char) = 'u' from rfl), List.drop_succ_cons,
    List.drop_zero, hx, if_pos (Or.inl (show n < 0xD800 by omega))]

/-- The string parser inverts `JSON.stringify` escaping on any content. -/
theorem parseJStrF_text (v : List Char) :
    ∀ (fuel : ℕ) (t : List Char), (v.flatMap jsonEscapeChar).length + 1 ≤ fuel →
      parseJStrF fuel (v.flatMap jsonEscapeChar ++ '"' :: t) = some (v, t) := by
  induction v with
  | nil =>
    intro fuel t hf
    rcases fuel with _ | f
    · omega
    · simp only [List.flatMap_nil, List.nil_append]
      rw [parseJStrF, if_pos rfl]
  | cons ch cs ih =>
    intro fuel t hf
    have hlen : ((ch :: cs).flatMap jsonEscapeChar).length
        = (jsonEscapeChar ch).length + (cs.flatMap jsonEscapeChar).length := by
      simp [List.flatMap_cons]
    have hesc1 : 1 ≤ (jsonEscapeChar ch).length := by
      rw [jsonEscapeChar]
      split_ifs <;> simp
    rcases fuel with _ | f
    · omega
    · have hb : (cs.flatMap jsonEscapeChar).length + 1 ≤ f := by omega
      rw [List.flatMap_cons, List.append_assoc]
      by_cases h1 : ch = '"'
      · subst h1
        rw [show jsonEscapeChar '"' = ['\\', '"'] from rfl]
        simp only [List.cons_append, List.nil_append]
        rw [parseJStrF_esc_step f '"' '"' _ (by decide) rfl, ih f t hb]
        rfl
      · by_cases h2 : ch = '\\'
        · subst h2
          rw [show jsonEscapeChar '\\' = ['\\', '\\'] from rfl]
          simp only [List.cons_append, List.nil_append]
          rw [parseJStrF_esc_step f '\\' '\\' _ (by decide) rfl, ih f t hb]
          rfl
        · by_cases h3 : ch.toNat < 0x20
          · by_cases c8 : ch.toNat = 8
            · rw [show jsonEscapeChar ch = ['\\', 'b'] from by
                rw [jsonEscapeChar, if_neg h1, if_neg h2, if_pos h3, if_pos c8]]
              simp only [List.cons_append, List.nil_append]
              rw [parseJStrF_esc_step f 'b' (Char.ofNat 8) _ (by decide) rfl]
              rw [show Char.ofNat 8 = ch from by rw [← c8, Char.ofNat_toNat], ih f t hb]
              rfl
            · by_cases c9 : ch.toNat = 9
              · rw [show jsonEscapeChar ch = ['\\', 't'] from by
                  rw [jsonEscapeChar, if_neg h1, if_neg h2, if_pos h3, if_neg c8, if_pos c9]]
                simp only [List.cons_append, List.nil_append]
                rw [parseJStrF_esc_step f 't' (Char.ofNat 9) _ (by decide) rfl]
                rw [show Char.ofNat 9 = ch from by rw [← c9, Char.ofNat_toNat], ih f t hb]
                rfl
              · by_cases c10 : ch.toNat = 10
                · rw [show jsonEscapeChar ch = ['\\', 'n'] from by
                    rw [jsonEscapeChar, if_neg h1, if_neg h2, if_pos h3, if_neg c8, if_neg c9,
                      if_pos c10]]
                  simp only [List.cons_append, List.nil_append]
                  rw [parseJStrF_esc_step f 'n' (Char.ofNat 10) _ (by decide) rfl]
                  rw [show Char.ofNat 10 = ch from by rw [← c10, Char.ofNat_toNat], ih f t hb]
                  rfl
                · by_cases c12 : ch.toNat = 12
                  · rw [show jsonEscapeChar ch = ['\\', 'f'] from by
                      rw [jsonEscapeChar, if_neg h1, if_neg h2, if_pos h3, if_neg c8, if_neg c9,
                        if_neg c10, if_pos c12]]
                    simp only [List.cons_append, List.nil_append]
                    rw [parseJStrF_esc_step f 'f' (Char.ofNat 12) _ (by decide) rfl]
                    rw [show Char.ofNat 12 = ch from by rw [← c12, Char.ofNat_toNat], ih f t hb]
                    rfl
                  · by_cases c13 : ch.toNat = 13
                    · rw [show jsonEscapeChar ch = ['\\', 'r'] from by
                        rw [jsonEscapeChar, if_neg h1, if_neg h2, if_pos h3, if_neg c8,
                          if_neg c9, if_neg c10, if_neg c12, if_pos c13]]
                      simp only [List.cons_append, List.nil_append]
                      rw [parseJStrF_esc_step f 'r' (Char.ofNat 13) _ (by decide) rfl]
                      rw [show Char.ofNat 13 = ch from by rw [← c13, Char.ofNat_toNat],
                        ih f t hb]
                      rfl
                    · rw [show jsonEscapeChar ch = ['\\', 'u', '0', '0',
                          hexDigitL (ch.toNat / 16), hexDigitL (ch.toNat % 16)] from by
                        rw [jsonEscapeChar, if_neg h1, if_neg h2, if_pos h3, if_neg c8,
                          if_neg c9, if_neg c10, if_neg c12, if_neg c13]]
                      simp only [List.cons_append, List.nil_append]
                      rw [parseJStrF_u_step f ch.toNat h3 _]
                      rw [Char.ofNat_toNat, ih f t hb]
                      rfl
          · rw [show jsonEscapeChar ch = [ch] from by
              rw [jsonEscapeChar, if_neg h1, if_neg h2, if_neg h3]]
            simp only [List.cons_append, List.nil_append]
            rw [parseJStrF_plain_step f ch _ h1 h2, ih f t hb]
            rfl



/-- The value parser inverts value serialization. -/
theorem parseJValF_text (v : JVal) (fuel : ℕ) (t : List Char)
    (hf : (jsonValText v).length + 1 ≤ fuel) :
    parseJValF fuel (jsonValText v ++ t) = some (v, t) := by
  cases v with
  | jstr s =>
    have hb : (s.data.flatMap jsonEscapeChar).length + 1 ≤ fuel := by
      rw [jsonValText, jsonStringifyStr] at hf
      simp only [List.length_cons, List.length_append, List.length_singleton] at hf
      omega
    rw [jsonValText, jsonStringifyStr]
    simp only [List.cons_append, List.append_assoc, List.singleton_append, List.nil_append]
    rw [parseJValF]
    simp only [List.head?_cons, if_pos rfl, if_true, List.drop_succ_cons, List.drop_zero]
    rw [parseJStrF_text s.data fuel t hb]
    rfl
  | jbool b =>
    cases b with
    | true =>
      rw [jsonValText]
      simp only [List.cons_append, List.nil_append]
      rw [parseJValF]
      simp only [List.head?_cons, if_neg (show ¬ ('t' = '"') by decide)]
      rw [if_pos (show ('t' :: 'r' :: 'u' :: 'e' :: t).take 4 = ['t', 'r', 'u', 'e'] from rfl)]
      rw [show ('t' :: 'r' :: 'u' :: 'e' :: t).drop 4 = t from rfl]
    | false =>
      rw [jsonValText]
      simp only [List.cons_append, List.nil_append]
      rw [parseJValF]
      simp only [List.head?_cons, if_neg (show ¬ ('f' = '"') by decide)]
      rw [if_neg (show ¬ (('f' :: 'a' :: 'l' :: 's' :: 'e' :: t).take 4
        = ['t', 'r', 'u', 'e']) from by
          intro he
          rw [show ('f' :: 'a' :: 'l' :: 's' :: 'e' :: t).take 4
            = ['f', 'a', 'l', 's'] from rfl] at he
          exact absurd he (by decide))]
      rw [if_pos (show ('f' :: 'a' :: 'l' :: 's' :: 'e' :: t).take 5
        = ['f', 'a', 'l', 's', 'e'] from rfl)]
      rw [show ('f' :: 'a' :: 'l' :: 's' :: 'e' :: t).drop 5 = t from rfl]

/-- The member parser inverts member serialization for a non-empty member
list. -/
theorem parseJMembersF_text (ms : JObj) (hne : ms ≠ []) :
    ∀ (fuel : ℕ) (t : List Char), (jsonMembersText ms).length + 1 ≤ fuel →
      parseJMembersF fuel (jsonMembersText ms ++ '}' :: t) = some (ms, t) := by
  induction ms with
  | nil => exact absurd rfl hne
  | cons m rest ih =>
    obtain ⟨k, v⟩ := m
    intro fuel t hf
    rcases fuel with _ | f
    · omega
    · rcases rest with _ | ⟨r0, rs⟩
      · rw [jsonMembersText, jsonStringifyStr] at hf ⊢
        simp only [List.length_cons, List.length_append, List.length_singleton] at hf
        simp only [List.cons_append, List.append_assoc, List.singleton_append,
          List.nil_append]
        rw [parseJMembersF]
        simp only [List.head?_cons, if_pos rfl, if_true, List.drop_succ_cons, List.drop_zero]
        rw [parseJStrF_text k.data f _ (by omega)]
        simp only [List.head?_cons, if_pos rfl, if_true, List.drop_succ_cons, List.drop_zero]
        rw [parseJValF_text v f _ (by omega)]
        simp only [List.head?_cons, if_neg (show ¬ ('}' = ',') by decide),
          if_pos rfl, if_true, List.drop_succ_cons, List.drop_zero]
      · rw [jsonMembersText, jsonStringifyStr] at hf ⊢
        simp only [List.length_cons, List.length_append, List.length_singleton] at hf
        simp only [List.cons_append, List.append_assoc, List.singleton_append,
          List.nil_append]
        rw [parseJMembersF]
        simp only [List.head?_cons, if_pos rfl, if_true, List.drop_succ_cons, List.drop_zero]
        rw [parseJStrF_text k.data f _ (by omega)]
        simp only [List.head?_cons, if_pos rfl, if_true, List.drop_succ_cons, List.drop_zero]
        rw [parseJValF_text v f _ (by omega)]
        simp only [List.head?_cons, if_pos rfl, if_true, List.drop_succ_cons, List.drop_zero]
        rw [ih (List.cons_ne_nil r0 rs) f t (by omega)]
        rfl
        all_goals exact fun h => List.noConfusion h

/-- The parser inverts `JSON.stringify` on any token object. -/
theorem jsonParse_jsonStringify (ms : JObj) : jsonParse (jsonStringify ms) = some ms := by
  rcases ms with _ | ⟨⟨k, v⟩, rest⟩
  · decide
  · have hm1 : jsonMembersText ((k, v) :: rest) ≠ [] := by
      rcases rest with _ | ⟨r0, rs⟩ <;>
        rw [jsonMembersText, jsonStringifyStr] <;> simp
    rw [jsonParse, jsonStringify]
    simp only [List.head?_cons, if_pos rfl, if_true, List.drop_succ_cons, List.drop_zero]
    rw [if_neg (by
      intro he
      have hl := congrArg List.length he
      simp only [List.length_append, List.length_singleton] at hl
      exact absurd (List.eq_nil_of_length_eq_zero (by omega)) hm1)]
    rw [show jsonMembersText ((k, v) :: rest) ++ ['}']
        = jsonMembersText ((k, v) :: rest) ++ '}' :: [] from rfl]
    rw [parseJMembersF_text ((k, v) :: rest) (by simp) _ [] (by
      simp only [List.length_cons, List.length_append, List.length_singleton]
      omega)]
    simp



/-- A lowercase hex digit is never a percent sign. -/
theorem hexDigitL_ne_percent (n : ℕ) (h : n < 16) : ¬ (hexDigitL n = '%') := by
  interval_cases n <;> decide

/-- Escaping a non-percent character emits no percent sign. -/
theorem percent_not_mem_escape (ch : Char) (hch : ¬ ch = '%') :
    ¬ ('%' ∈ jsonEscapeChar ch) := by
  intro hmem
  rw [jsonEscapeChar] at hmem
  split_ifs at hmem with h1 h2 h3 h4 h5 h6 h7 h8
  · exact absurd hmem (by decide)
  · exact absurd hmem (by decide)
  · exact absurd hmem (by decide)
  · exact absurd hmem (by decide)
  · exact absurd hmem (by decide)
  · exact absurd hmem (by decide)
  · exact absurd hmem (by decide)
  · simp only [List.mem_cons, List.not_mem_nil, or_false] at hmem
    rcases hmem with h | h | h | h | h | h
    · exact absurd h (by decide)
    · exact absurd h (by decide)
    · exact absurd h (by decide)
    · exact absurd h (by decide)
    · exact hexDigitL_ne_percent _ (by omega) h.symm
    · exact hexDigitL_ne_percent _ (by omega) h.symm
  · simp only [List.mem_singleton] at hmem
    exact hch hmem.symm

/-- Serializing a percent-free string emits no percent sign. -/
theorem percent_not_mem_strText (s : String) (h : ¬ ('%' ∈ s.data)) :
    ¬ ('%' ∈ jsonStringifyStr s) := by
  intro hmem
  rw [jsonStringifyStr] at hmem
  simp only [List.mem_cons, List.mem_append, List.mem_singleton] at hmem
  rcases hmem with h1 | h2 | h3
  · exact absurd h1 (by decide)
  · rw [List.mem_flatMap] at h2
    obtain ⟨ch, hch, hin⟩ := h2
    exact percent_not_mem_escape ch (fun he => h (he ▸ hch)) hin
  · exact absurd h3 (by decide)

/-- A token value whose string content is percent-free. -/
def noPercentVal : JVal → Prop
  | .jstr s => ¬ ('%' ∈ s.data)
  | .jbool _ => True

/-- Serializing a percent-free value emits no percent sign. -/
theorem percent_not_mem_valText (v : JVal) (h : noPercentVal v) :
    ¬ ('%' ∈ jsonValText v) := by
  cases v with
  | jstr s => exact percent_not_mem_strText s h
  | jbool b => cases b <;> decide

/-- Serializing percent-free members emits no percent sign. -/
theorem percent_not_mem_members (ms : JObj)
    (h : ∀ kv ∈ ms, ¬ ('%' ∈ kv.1.data) ∧ noPercentVal kv.2) :
    ¬ ('%' ∈ jsonMembersText ms) := by
  induction ms with
  | nil => simp [jsonMembersText]
  | cons m rest ih =>
    obtain ⟨k, v⟩ := m
    have hm := h (k, v) (by simp)
    rcases rest with _ | ⟨r0, rs⟩
    · rw [jsonMembersText]
      intro hmem
      simp only [List.mem_append, List.mem_cons] at hmem
      rcases hmem with h1 | h2 | h3
      · exact percent_not_mem_strText k hm.1 h1
      · exact absurd h2 (by decide)
      · exact percent_not_mem_valText v hm.2 h3
    · rw [jsonMembersText]
      intro hmem
      simp only [List.mem_append, List.mem_cons] at hmem
      rcases hmem with (h1 | h2 | h3) | h4 | h5
      · exact percent_not_mem_strText k hm.1 h1
      · exact absurd h2 (by decide)
      · exact percent_not_mem_valText v hm.2 h3
      · exact absurd h4 (by decide)
      · exact ih (fun kv hkv => h kv (by simp [hkv])) h5
      all_goals exact fun hh => List.noConfusion hh

/-- Serializing a percent-free object emits no percent sign. -/
theorem percent_not_mem_stringify (ms : JObj)
    (h : ∀ kv ∈ ms, ¬ ('%' ∈ kv.1.data) ∧ noPercentVal kv.2) :
    ¬ ('%' ∈ (jsonStringify ms).data) := by
  intro hmem
  rw [jsonStringify] at hmem
  simp only [List.mem_cons, List.mem_append, List.mem_singleton] at hmem
  rcases hmem with h1 | h2 | h3
  · exact absurd h1 (by decide)
  · exact percent_not_mem_members ms h h2
  · exact absurd h3 (by decide)



/-- The token `CampaignEditor` embeds after `?c=` in the portable link (line
200): `encodeURIComponent(JSON.stringify(...))` of the `encodePortable`
object. -/
def portableToken (c : Campaign) : String :=
  percentEncode (jsonStringify (encodePortable c))

/-- Everything the portable token goes through between the editor and the
object `Survey` decodes: `URLSearchParams` percent-decodes the `c` value once
in `hashRoute` (line 42), and line 301 percent-decodes that value a second
time with `decodeURIComponent` before `JSON.parse` — `none` is a thrown
`URIError`/`SyntaxError`, caught at line 317, in which case no ephemeral
campaign exists at all. -/
def portablePipeline (c : Campaign) : Option JObj :=
  (urlValueDecode (portableToken c)).bind fun p =>
    (decodeURIComponentM p).bind jsonParse

/-- When no encoded field value contains a percent sign, the transport is
lossless and yields exactly the encoded object. -/
theorem portablePipeline_eq (c : Campaign)
    (hp : ∀ v ∈ [c.brandName, c.accentHex, c.thankYou, c.promoterUrl, c.passiveUrl,
      c.detractorUrl, c.webhookUrl], ¬ ('%' ∈ v.data)) :
    portablePipeline c = some (encodePortable c) := by
  have hnp : ¬ ('%' ∈ (jsonStringify (encodePortable c)).data) := by
    apply percent_not_mem_stringify
    intro kv hkv
    rw [encodePortable] at hkv
    simp only [List.mem_cons, List.not_mem_nil, or_false] at hkv
    rcases hkv with h | h | h | h | h | h | h | h <;> subst h
    · exact ⟨by show ¬ ('%' ∈ ("brandName" : String).data); decide, hp c.brandName (by simp)⟩
    · exact ⟨by show ¬ ('%' ∈ ("accentHex" : String).data); decide, hp c.accentHex (by simp)⟩
    · exact ⟨by show ¬ ('%' ∈ ("thankYou" : String).data); decide, hp c.thankYou (by simp)⟩
    · exact ⟨by show ¬ ('%' ∈ ("promoterUrl" : String).data); decide, hp c.promoterUrl (by simp)⟩
    · exact ⟨by show ¬ ('%' ∈ ("passiveUrl" : String).data); decide, hp c.passiveUrl (by simp)⟩
    · exact ⟨by show ¬ ('%' ∈ ("detractorUrl" : String).data); decide, hp c.detractorUrl (by simp)⟩
    · exact ⟨by show ¬ ('%' ∈ ("webhookUrl" : String).data); decide, hp c.webhookUrl (by simp)⟩
    · exact ⟨by show ¬ ('%' ∈ ("isActive" : String).data); decide, trivial⟩
  rw [portablePipeline, portableToken, urlValueDecode_percentEncode]
  show (decodeURIComponentM (jsonStringify (encodePortable c))).bind jsonParse = _
  rw [decodeURIComponentM, percentDecodeL_id _ hnp]
  show jsonParse (String.mk (jsonStringify (encodePortable c)).data) = _
  rw [strEta, jsonParse_jsonStringify]


/-- A campaign whose encoded presentation fields are all empty strings. -/
def emptyFieldsCampaign : Campaign :=
  { id := "camp-empty", name := "n", audience := "clients",
    brandName := "", accentHex := "", thankYou := "",
    promoterUrl := "", passiveUrl := "", detractorUrl := "",
    webhookUrl := "", isActive := true }

set_option maxRecDepth 4000

/-- A campaign whose brand name carries a `%` not followed by hex digits. -/
def percentThrowCampaign : Campaign :=
  { id := "camp-throw", name := "n", audience := "clients",
    brandName := "a%b", accentHex := "#111111", thankYou := "T",
    promoterUrl := "", passiveUrl := "", detractorUrl := "",
    webhookUrl := "", isActive := true }

/-- A campaign whose brand name carries a `%` followed by hex digits. -/
def percentCorruptCampaign : Campaign :=
  { id := "camp-corrupt", name := "n", audience := "clients",
    brandName := "a%7Eb", accentHex := "#111111", thankYou := "T",
    promoterUrl := "", passiveUrl := "", detractorUrl := "",
    webhookUrl := "", isActive := true }

/-- C4 counterexample: concrete campaigns on which decoding the token
produced by encoding does not reproduce the encoded field values.  Empty
`accentHex` and `thankYou` survive the transport intact but decode to the
`||` fallbacks `"#2563eb"` and `"Merci!"`.  A `%` in a field value defeats
the transport itself: the token is percent-decoded twice (`URLSearchParams`
at line 42, then `decodeURIComponent` at line 301), so `"a%b"` makes the
second decode throw — the whole token is rejected and no ephemeral campaign
exists — and `"a%7Eb"` is silently corrupted to `"a~b"`. -/
theorem c4_counterexample :
    (portablePipeline emptyFieldsCampaign = some (encodePortable emptyFieldsCampaign)
      ∧ emptyFieldsCampaign.accentHex = ""
      ∧ (decodePortable "cid" "fresh" (encodePortable emptyFieldsCampaign)).accentHex = "#2563eb"
      ∧ emptyFieldsCampaign.thankYou = ""
      ∧ (decodePortable "cid" "fresh" (encodePortable emptyFieldsCampaign)).thankYou = "Merci!")
    ∧ (percentThrowCampaign.brandName = "a%b"
      ∧ portablePipeline percentThrowCampaign = none)
    ∧ (percentCorruptCampaign.brandName = "a%7Eb"
      ∧ Option.map (fun data => jStrOr data "brandName" "")
          (portablePipeline percentCorruptCampaign) = some "a~b") := by
  refine ⟨⟨?_, ?_, ?_, ?_, ?_⟩, ⟨?_, ?_⟩, ⟨?_, ?_⟩⟩ <;> decide

/-- C4 amended: when no encoded field value contains a percent sign, the
full transport — `JSON.stringify`, `encodeURIComponent`, the `URLSearchParams`
decode, `decodeURIComponent`, `JSON.parse` — returns exactly the encoded
object, and the ephemeral campaign built from it reproduces `brandName`,
`promoterUrl`, `passiveUrl`, `detractorUrl`, `webhookUrl` and `isActive` for
arbitrary such values including the empty string, and reproduces `accentHex`
and `thankYou` exactly when they are non-empty (an empty value of either
decodes to the defaults `"#2563eb"` / `"Merci!"`). -/
theorem c4_roundtrip (c : Campaign) (cid fresh : String)
    (hp : ∀ v ∈ [c.brandName, c.accentHex, c.thankYou, c.promoterUrl, c.passiveUrl,
      c.detractorUrl, c.webhookUrl], ¬ ('%' ∈ v.data))
    (hHex : c.accentHex ≠ "") (hTy : c.thankYou ≠ "") :
    portablePipeline c = some (encodePortable c)
    ∧ (decodePortable cid fresh (encodePortable c)).brandName = c.brandName
    ∧ (decodePortable cid fresh (encodePortable c)).accentHex = c.accentHex
    ∧ (decodePortable cid fresh (encodePortable c)).thankYou = c.thankYou
    ∧ (decodePortable cid fresh (encodePortable c)).promoterUrl = c.promoterUrl
    ∧ (decodePortable cid fresh (encodePortable c)).passiveUrl = c.passiveUrl
    ∧ (decodePortable cid fresh (encodePortable c)).detractorUrl = c.detractorUrl
    ∧ (decodePortable cid fresh (encodePortable c)).webhookUrl = c.webhookUrl
    ∧ (decodePortable cid fresh (encodePortable c)).isActive = c.isActive := by
  have h1 : jLookup (encodePortable c) "brandName" = some (.jstr c.brandName) := rfl
  have h2 : jLookup (encodePortable c) "accentHex" = some (.jstr c.accentHex) := rfl
  have h3 : jLookup (encodePortable c) "thankYou" = some (.jstr c.thankYou) := rfl
  have h4 : jLookup (encodePortable c) "promoterUrl" = some (.jstr c.promoterUrl) := rfl
  have h5 : jLookup (encodePortable c) "passiveUrl" = some (.jstr c.passiveUrl) := rfl
  have h6 : jLookup (encodePortable c) "detractorUrl" = some (.jstr c.detractorUrl) := rfl
  have h7 : jLookup (encodePortable c) "webhookUrl" = some (.jstr c.webhookUrl) := rfl
  have h8 : jLookup (encodePortable c) "isActive" = some (.jbool (c.isActive != false)) := rfl
  refine ⟨portablePipeline_eq c hp, ?_, ?_, ?_, ?_, ?_, ?_, ?_, ?_⟩ <;>
    simp only [decodePortable, jStrOr, h1, h2, h3, h4, h5, h6, h7, h8]
  · split <;> simp_all
  · rw [if_neg hHex]
  · rw [if_neg hTy]
  · split <;> simp_all
  · split <;> simp_all
  · split <;> simp_all
  · split <;> simp_all
  · show jNeqFalse (encodePortable c) "isActive" = c.isActive
    rw [jNeqFalse, h8]
    cases c.isActive <;> rfl

/-- Witness for C4 on a campaign with percent-free, non-empty fields. -/
theorem c4_roundtrip_witness :
    ((∀ v ∈ [fixCampaign.brandName, fixCampaign.accentHex, fixCampaign.thankYou,
        fixCampaign.promoterUrl, fixCampaign.passiveUrl, fixCampaign.detractorUrl,
        fixCampaign.webhookUrl], ¬ ('%' ∈ v.data))
      ∧ fixCampaign.accentHex ≠ "" ∧ fixCampaign.thankYou ≠ "")
    ∧ portablePipeline fixCampaign = some (encodePortable fixCampaign) :=
  ⟨⟨by decide, by decide, by decide⟩,
    (c4_roundtrip fixCampaign "cid" "fresh" (by decide) (by decide) (by decide)).1⟩

/-- Route-level view of the portable token parameter `?c=`: absent from the
query, present but not decodable (the `JSON.parse` of lines 301 throws, caught
at lines 317-319), or decoded to an object. -/
inductive CTok where
  | absent
  | malformed
  | parsed (data : JObj)
deriving DecidableEq, Repr

/-- Campaign resolution of `Survey` (lines 296-320): the stored campaign
matching the path id; otherwise, when a token is present and decodes, the
ephemeral campaign synthesized from it; otherwise nothing. -/
def resolveCampaign (campaigns : List Campaign) (campaignId freshId : String)
    (ctok : CTok) : Option Campaign :=
  match campaigns.find? (fun c => c.id == campaignId) with
  | some c => some c
  | none =>
    match ctok with
    | .parsed data => some (decodePortable campaignId freshId data)
    | _ => none

/-- What `Survey` renders (lines 329-339): the neutral unavailable card when
no campaign resolved or the resolved one is inactive, the survey form
otherwise. -/
inductive SurveyView where
  | unavailable
  | form (c : Campaign)
deriving DecidableEq, Repr

/-- Render decision of `Survey`: `if (!campaign || !campaign.isActive)` shows
the unavailable card. -/
def surveyView (campaigns : List Campaign) (campaignId freshId : String)
    (ctok : CTok) : SurveyView :=
  match resolveCampaign campaigns campaignId freshId ctok with
  | none => .unavailable
  | some c => if c.isActive then .form c else .unavailable

/-- Navigation target of the unavailable card's only control (line 335,
`setRoute("")`): the dashboard. -/
def unavailableBackTarget : String := ""

/-- Events a visitor can produce on the rendered survey page: one of the
eleven score buttons (lines 417-424 render exactly scores 0-10), the submit
button, or the back-to-dashboard button of the unavailable card. -/
inductive Ev where
  | pick (n : Fin 11)
  | submit
  | back
deriving DecidableEq, Repr

/-- Mutable state of one survey visit: the pending score (`useState(null)`),
the response collection behind `onSubmitResponse` (line 469), and the
surfaced validation messages. -/
structure VisitState where
  score : Option (Fin 11)
  responses : List Response
  alerts : List String
deriving DecidableEq, Repr

/-- The `payload` record built by `handleSubmit` (lines 346-355): fresh id,
current timestamp, resolved campaign id, numeric score, trimmed comment and
email, captured metadata and the full route params. -/
def mkPayload (fresh now : String) (c : Campaign) (n : Fin 11)
    (comment email : String) (meta params : List (String × String)) : Response :=
  { id := fresh, tsISO := now, campaignId := c.id, score := ((n : ℕ) : ℚ),
    comment := comment.trim, email := email.trim, meta := meta,
    routeParams := params }

/-- One step of a visit.  The unavailable card wires no submit handler, so no
event there touches the visit state; on the form, a score button stores its
value and submit first validates the pending score (line 344): a null score
surfaces the alert and creates nothing, otherwise the payload is prepended to
the responses. -/
def stepEv (view : SurveyView) (fresh now comment email : String)
    (meta params : List (String × String)) (st : VisitState) (e : Ev) : VisitState :=
  match view with
  | .unavailable => st
  | .form c =>
    match e with
    | .pick n => { st with score := some n }
    | .back => st
    | .submit =>
      match st.score with
      | none => { st with alerts := "Choisis une note de 0 à 10" :: st.alerts }
      | some n =>
        { st with responses := mkPayload fresh now c n comment email meta params :: st.responses }

/-- C6: a submit with a null pending score creates no response, leaves the
collection unchanged and surfaces the validation message; every response any
event adds was already present or is a payload whose score is an integer in
`[0, 10]` (the only scores the eleven buttons can store). -/
theorem c6_submit_validation (view : SurveyView) (fresh now comment email : String)
    (meta params : List (String × String)) (st : VisitState) (e : Ev) :
    (∀ r ∈ (stepEv view fresh now comment email meta params st e).responses,
        r ∈ st.responses ∨ ∃ n : ℤ, r.score = (n:ℚ) ∧ 0 ≤ n ∧ n ≤ 10)
    ∧ (∀ c : Campaign, view = .form c → st.score = none → e = .submit →
        (stepEv view fresh now comment email meta params st e).responses = st.responses
        ∧ (stepEv view fresh now comment email meta params st e).alerts
            = "Choisis une note de 0 à 10" :: st.alerts) := by
  constructor
  · intro r hr
    cases view with
    | unavailable => exact Or.inl hr
    | form c =>
      cases e with
      | pick n => exact Or.inl hr
      | back => exact Or.inl hr
      | submit =>
        cases hs : st.score with
        | none =>
          rw [stepEv] at hr
          simp only [hs] at hr
          exact Or.inl hr
        | some n =>
          rw [stepEv] at hr
          simp only [hs, List.mem_cons] at hr
          rcases hr with h | h
          · refine Or.inr ⟨((n : ℕ) : ℤ), ?_, ?_, ?_⟩
            · simp [h, mkPayload]
            · positivity
            · exact_mod_cast Nat.lt_succ_iff.mp n.isLt
          · exact Or.inl h
  · intro c hv hs he
    subst hv; subst he
    simp [stepEv, hs]

/-- Witness for C6: a submit on the form with no score picked changes no
responses and surfaces the alert. -/
theorem c6_submit_validation_witness :
    (SurveyView.form fixCampaign = SurveyView.form fixCampaign
      ∧ (⟨none, [], []⟩ : VisitState).score = none ∧ Ev.submit = Ev.submit)
    ∧ (stepEv (.form fixCampaign) "f" "t" "" "" [] [] ⟨none, [], []⟩ .submit).responses = []
    ∧ (stepEv (.form fixCampaign) "f" "t" "" "" [] [] ⟨none, [], []⟩ .submit).alerts
        = ["Choisis une note de 0 à 10"] :=
  ⟨⟨rfl, rfl, rfl⟩,
    (c6_submit_validation (.form fixCampaign) "f" "t" "" "" [] [] ⟨none, [], []⟩ .submit).2
      fixCampaign rfl rfl rfl⟩

/-- C7: when the id resolves to no campaign (no stored match and no decodable
token) or to an inactive one, the survey renders the neutral unavailable card
whose control navigates back to the dashboard, and no event sequence on that
visit ever creates a response. -/
theorem c7_unavailable_no_response (campaigns : List Campaign)
    (campaignId freshId : String) (ctok : CTok)
    (h : resolveCampaign campaigns campaignId freshId ctok = none
         ∨ ∃ c, resolveCampaign campaigns campaignId freshId ctok = some c
             ∧ c.isActive = false) :
    surveyView campaigns campaignId freshId ctok = .unavailable
    ∧ unavailableBackTarget = ""
    ∧ ∀ (fresh now comment email : String) (meta params : List (String × String))
        (st : VisitState) (evs : List Ev),
        (evs.foldl
          (stepEv (surveyView campaigns campaignId freshId ctok) fresh now comment email meta params)
          st).responses = st.responses := by
  have hview : surveyView campaigns campaignId freshId ctok = .unavailable := by
    rcases h with h | ⟨c, hc, hia⟩
    · rw [surveyView, h]
    · rw [surveyView, hc]
      simp [hia]
  refine ⟨hview, rfl, ?_⟩
  intro fresh now comment email meta params st evs
  rw [hview]
  induction evs generalizing st with
  | nil => rfl
  | cons e tl ih => exact ih _

/-- Witness for C7: visiting with an unknown id, no token and an empty store
renders the unavailable card. -/
theorem c7_unavailable_no_response_witness :
    (resolveCampaign [] "missing" "fresh" .absent = none
      ∨ ∃ c, resolveCampaign [] "missing" "fresh" .absent = some c ∧ c.isActive = false)
    ∧ surveyView [] "missing" "fresh" .absent = .unavailable :=
  ⟨Or.inl rfl, (c7_unavailable_no_response [] "missing" "fresh" .absent (Or.inl rfl)).1⟩

/-- One observable effect of a `handleSubmit` run. -/
inductive Action where
  | persist (p : Response)
  | webhookPost (url : String) (body : Response) (delivered : Bool)
  | navigate (u : UrlModel)
  | alert (msg : String)
deriving DecidableEq, Repr

/-- The ordered effects of one `handleSubmit` run (lines 343-399): the
validation alert when no score is pending; otherwise persistence of the
payload through `onSubmitResponse` (line 357), then — only when `webhookUrl`
is non-empty — the webhook POST (lines 360-364; its `fetch` is awaited inside
a `try`/`catch` that swallows failure, recorded here by the `delivered` flag),
then the redirect navigation (line 398) when a destination exists. -/
def handleSubmitTrace (origin fresh now : String) (c : Campaign)
    (score : Option (Fin 11)) (comment email : String)
    (meta params : List (String × String)) (delivered : Bool) : List Action :=
  match score with
  | none => [.alert "Choisis une note de 0 à 10"]
  | some n =>
    let payload := mkPayload fresh now c n comment email meta params
    [.persist payload]
    ++ (if c.webhookUrl != "" then [.webhookPost c.webhookUrl payload delivered] else [])
    ++ (match handleRedirect origin c ((n : ℕ) : ℚ) email params with
        | some u => [.navigate u]
        | none => [])

/-- Actions other than the webhook POST. -/
def nonWebhook : Action → Bool
  | .webhookPost _ _ _ => false
  | _ => true

/-- C8: on a valid submission the persistence is the first effect of the run
— strictly before any webhook POST; a webhook POST occurs iff the campaign's
`webhookUrl` is non-empty; and the trace outside the webhook action — in
particular the persistence and the navigation — is the same whether the
webhook delivery succeeds or fails, with navigation occurring exactly when
the redirect computation yields a destination. -/
theorem c8_persist_before_webhook (origin fresh now : String) (c : Campaign)
    (score : Option (Fin 11)) (comment email : String)
    (meta params : List (String × String)) (n : Fin 11) (hn : score = some n) :
    (∃ rest, handleSubmitTrace origin fresh now c score comment email meta params true
        = .persist (mkPayload fresh now c n comment email meta params) :: rest)
    ∧ ((∃ b d, Action.webhookPost c.webhookUrl b d
          ∈ handleSubmitTrace origin fresh now c score comment email meta params true)
        ↔ c.webhookUrl ≠ "")
    ∧ (∀ d₁ d₂ : Bool,
        (handleSubmitTrace origin fresh now c score comment email meta params d₁).filter nonWebhook
        = (handleSubmitTrace origin fresh now c score comment email meta params d₂).filter nonWebhook)
    ∧ (∀ (d : Bool) (u : UrlModel),
        Action.navigate u ∈ handleSubmitTrace origin fresh now c score comment email meta params d
        ↔ handleRedirect origin c ((n : ℕ) : ℚ) email params = some u) := by
  subst hn
  by_cases hw : c.webhookUrl = ""
  · rcases hr : handleRedirect origin c ((n : ℕ) : ℚ) email params with _ | u <;>
      simp [handleSubmitTrace, hw, hr, nonWebhook] <;>
      exact fun v => ⟨fun h => h.symm, fun h => h.symm⟩
  · rcases hr : handleRedirect origin c ((n : ℕ) : ℚ) email params with _ | u <;>
      simp [handleSubmitTrace, hw, hr, nonWebhook] <;>
      exact fun v => ⟨fun h => h.symm, fun h => h.symm⟩

/-- Witness for C8 at a concrete submission with score 9. -/
theorem c8_persist_before_webhook_witness :
    ((some (9 : Fin 11) : Option (Fin 11)) = some 9)
    ∧ ∃ rest,
        handleSubmitTrace "https://app.local" "id1" "ts" leakCampaign (some 9) "" "" [] [] true
          = .persist (mkPayload "id1" "ts" leakCampaign 9 "" "" [] []) :: rest :=
  ⟨rfl,
    (c8_persist_before_webhook "https://app.local" "id1" "ts" leakCampaign
      (some 9) "" "" [] [] 9 rfl).1⟩

end NpsApp
